import Mathlib

/-!
Verification of the skill-package tooling: the generator
(`init_skill.py`) and the validator (`validate_skill.py`).

The Python sources are shallowly embedded below.  Strings are modelled
as Lean `String`/`List Char` with ASCII character-class semantics
(`str.lower`, `str.islower`, `str.isdigit`, whitespace stripping are
modelled on the ASCII range; every string this tooling manipulates is
ASCII).  Python exceptions are modelled with `Except`.  Quote
punctuation inside report messages is omitted (it plays no semantic
role); everything else in a message string is kept verbatim.
-/

namespace SkillPkg

/-! ## ASCII character helpers (model of the Python `str` methods used) -/

/-- Python `str.strip()` whitespace set, ASCII range. -/
def isPyWs (c : Char) : Bool :=
  c = ' ' || c = '\t' || c = '\n' || c = '\r' || c = '\x0b' || c = '\x0c'

/-- Strip from the back: drop trailing characters satisfying `p`. -/
def dropEndWhile (p : Char → Bool) (l : List Char) : List Char :=
  (l.reverse.dropWhile p).reverse

/-- Python `str.strip()` on a character list. -/
def pyStrip (l : List Char) : List Char :=
  dropEndWhile isPyWs (l.dropWhile isPyWs)

/-- Python `str.strip('-')` on a character list. -/
def pyStripHyphens (l : List Char) : List Char :=
  dropEndWhile (· = '-') (l.dropWhile (· = '-'))

/-- A lowercase ASCII letter or digit — the character class `[a-z0-9]`
of `init_skill.py`. -/
def isLowerAlnum (c : Char) : Bool :=
  c.isLower || c.isDigit

/-- A character allowed in a skill identifier: `[a-z0-9-]`. -/
def isIdChar (c : Char) : Bool :=
  isLowerAlnum c || c = '-'

/-! ## Name Normalizer (`init_skill.py`, `normalize_skill_name`) -/

/-- `re.sub(r"[^a-z0-9]+", "-", s)`: replace every maximal run of
characters outside `[a-z0-9]` by a single hyphen.  The flag records
whether we are inside such a run. -/
def subRunsAux : Bool → List Char → List Char
  | _, [] => []
  | inRun, c :: rest =>
    if isLowerAlnum c then c :: subRunsAux false rest
    else if inRun then subRunsAux true rest
    else '-' :: subRunsAux true rest

/-- `re.sub(r"-{2,}", "-", s)`: collapse every run of two or more
hyphens to a single one.  The flag records whether the previous
character was a hyphen. -/
def collapseHyphensAux : Bool → List Char → List Char
  | _, [] => []
  | prev, c :: rest =>
    if c = '-' then
      if prev then collapseHyphensAux true rest
      else '-' :: collapseHyphensAux true rest
    else c :: collapseHyphensAux false rest

/-- `normalize_skill_name` from `init_skill.py`:
`skill_name.strip().lower()`, replace non-`[a-z0-9]` runs by `-`,
`strip('-')`, collapse `-{2,}`. -/
def normalize_skill_name (s : String) : String :=
  ⟨collapseHyphensAux false
    (pyStripHyphens
      (subRunsAux false
        ((pyStrip s.data).map Char.toLower)))⟩

def MAX_SKILL_NAME_LENGTH : Nat := 64

/-- The checks `main` of `init_skill.py` performs on the normalized
name before doing anything else: an empty normalization and an
over-long normalization are input errors. -/
def checkSkillName (raw : String) : Except String String :=
  let skill_name := normalize_skill_name raw
  if skill_name = "" then
    .error "[ERROR] Skill name must include at least one letter or digit."
  else if MAX_SKILL_NAME_LENGTH < skill_name.length then
    .error ("[ERROR] Skill name " ++ skill_name ++ " is too long (" ++
      toString skill_name.length ++ " characters). Maximum is 64 characters.")
  else .ok skill_name

/-! ## Title casing (`init_skill.py`, `title_case_skill_name`) -/

/-- Python `str.capitalize()`: first character to upper case, the rest
to lower case (ASCII model). -/
def pyCapitalize (l : List Char) : List Char :=
  match l with
  | [] => []
  | c :: rest => c.toUpper :: rest.map Char.toLower

/-- Python `s.split("-")` on a character list (single-character
separator, empty pieces kept). -/
def pySplitChar (sep : Char) : List Char → List (List Char)
  | [] => [[]]
  | c :: rest =>
    if c = sep then [] :: pySplitChar sep rest
    else
      match pySplitChar sep rest with
      | [] => [[c]]
      | p :: ps => (c :: p) :: ps

/-- `" ".join(pieces)`. -/
def joinWith (sep : List Char) : List (List Char) → List Char
  | [] => []
  | [p] => p
  | p :: ps => p ++ sep ++ joinWith sep ps

/-- `title_case_skill_name` from `init_skill.py`:
`" ".join(word.capitalize() for word in skill_name.split("-"))`. -/
def title_case_skill_name (s : String) : String :=
  ⟨joinWith [' '] ((pySplitChar '-' s.data).map pyCapitalize)⟩

/-! ## Resource selection parser (`init_skill.py`, `parse_resources`) -/

def ALLOWED_RESOURCES : List String := ["scripts", "references", "assets"]

/-- Python `str.split(",")` (no maxsplit) on a string. -/
def pySplitComma (s : String) : List String :=
  (pySplitChar ',' s.data).map (fun l => (⟨l⟩ : String))

/-- Python `<` on strings: lexicographic comparison by code point. -/
def strLtbAux : List Char → List Char → Bool
  | [], [] => false
  | [], _ :: _ => true
  | _ :: _, [] => false
  | a :: as, b :: bs => if a < b then true else if b < a then false else strLtbAux as bs

def strLtb (x y : String) : Bool := strLtbAux x.data y.data

/-- `sorted(...)` over strings: insertion sort by Python `<` on `str`. -/
def insertSorted (x : String) : List String → List String
  | [] => [x]
  | y :: ys => if strLtb x y then x :: y :: ys else y :: insertSorted x ys

def sortStrings (l : List String) : List String :=
  l.foldr insertSorted []

/-- `list(dict.fromkeys(...))`-style first-seen deduplication: the
`deduped`/`seen` loop of `parse_resources`. -/
def dedupeFirstAux (seen : List String) : List String → List String
  | [] => []
  | x :: xs =>
    if x ∈ seen then dedupeFirstAux seen xs
    else x :: dedupeFirstAux (x :: seen) xs

def dedupeFirst (l : List String) : List String :=
  dedupeFirstAux [] l

/-- The trimmed, non-empty tokens of the raw `--resources` value:
`[item.strip() for item in raw.split(",") if item.strip()]`. -/
def resourceTokens (raw : String) : List String :=
  ((pySplitComma raw).map (fun t => (⟨pyStrip t.data⟩ : String))).filter
    (fun t => t ≠ "")

/-- `item not in ALLOWED_RESOURCES`. -/
def isUnknownResource (t : String) : Bool := t ∉ ALLOWED_RESOURCES

/-- `parse_resources` from `init_skill.py`.  The Python prints the
invalid tokens and the allowed set and exits; the error value carries
exactly that printed data: the sorted deduplicated invalid tokens and
the sorted allowed set. -/
def parse_resources (raw : String) : Except (List String × List String) (List String) :=
  if raw = "" then .ok []
  else
    let resources := resourceTokens raw
    let invalid := sortStrings (dedupeFirst (resources.filter isUnknownResource))
    if invalid ≠ [] then .error (invalid, sortStrings ALLOWED_RESOURCES)
    else .ok (dedupeFirst resources)

/-! ## YAML values

The value universe for parsed frontmatter: the PyYAML scalar and
container shapes this tool can meet (strings, integers, booleans,
null, sequences, mappings — mappings as ordered association lists). -/

instance {ε α : Type} [DecidableEq ε] [DecidableEq α] : DecidableEq (Except ε α) := fun a b =>
  match a, b with
  | .ok x, .ok y =>
    if h : x = y then isTrue (by rw [h]) else isFalse (by intro hc; cases hc; exact h rfl)
  | .error x, .error y =>
    if h : x = y then isTrue (by rw [h]) else isFalse (by intro hc; cases hc; exact h rfl)
  | .ok _, .error _ => isFalse (by intro hc; cases hc)
  | .error _, .ok _ => isFalse (by intro hc; cases hc)

inductive YamlValue where
  | str (s : String)
  | intV (n : Int)
  | boolV (b : Bool)
  | nullV
  | list (xs : List YamlValue)
  | map (kvs : List (String × YamlValue))

/-- Python `==` between an arbitrary value and a `str` (the only
cross-type comparison the validator performs): only equal when the
value is that very string. -/
def yamlEqStr (v : YamlValue) (s : String) : Bool :=
  match v with
  | .str t => t = s
  | _ => false

/-- A Python exception escaping `validate_skill` (uncaught
`TypeError`/`AttributeError`/`KeyError`; the process dies with a
traceback). -/
inductive PyErr where
  | typeError
  | attrError
  | keyError
deriving DecidableEq

mutual

/-- Python `str(value)` as interpolated into the report messages
(quote punctuation around strings is omitted). -/
def pyStr : YamlValue → String
  | .str s => s
  | .intV n => toString n
  | .boolV true => "True"
  | .boolV false => "False"
  | .nullV => "None"
  | .list xs => "[" ++ pyStrList xs ++ "]"
  | .map kvs => "\x7b" ++ pyStrMap kvs ++ "\x7d"

def pyStrList : List YamlValue → String
  | [] => ""
  | [v] => pyStr v
  | v :: vs => pyStr v ++ ", " ++ pyStrList vs

def pyStrMap : List (String × YamlValue) → String
  | [] => ""
  | [(k, v)] => k ++ ": " ++ pyStr v
  | (k, v) :: kvs => k ++ ": " ++ pyStr v ++ ", " ++ pyStrMap kvs

end

/-! ## Skill id check (`validate_skill.py`, `is_valid_skill_id`) -/

/-- `is_valid_skill_id` on a string: non-empty, first character a
lowercase letter, every character lowercase letter, digit, or
hyphen. -/
def is_valid_skill_id (s : String) : Bool :=
  match s.data with
  | [] => false
  | c :: _ => c.isLower && s.data.all isIdChar

/-- Python `str.islower()` (ASCII model): at least one cased character
and no cased character in upper case. -/
def pyStrIslower (s : String) : Bool :=
  s.data.any Char.isAlpha && s.data.all (fun c => !c.isAlpha || c.isLower)

/-- Python `str.isdigit()` (ASCII model). -/
def pyStrIsdigit (s : String) : Bool :=
  s ≠ "" && s.data.all Char.isDigit

/-- `v.islower()` for a value met while iterating a list-valued id:
only strings have `islower`; anything else raises `AttributeError`. -/
def pyIslowerElem : YamlValue → Except PyErr Bool
  | .str s => .ok (pyStrIslower s)
  | _ => .error .attrError

def pyIsdigitElem : YamlValue → Except PyErr Bool
  | .str s => .ok (pyStrIsdigit s)
  | _ => .error .attrError

/-- `c.islower() or c.isdigit() or c == '-'` for one element of a
list-valued id (short-circuiting like Python `or`). -/
def idElemOk (v : YamlValue) : Except PyErr Bool := do
  let b1 ← pyIslowerElem v
  if b1 then pure true
  else
    let b2 ← pyIsdigitElem v
    if b2 then pure true
    else pure (yamlEqStr v "-")

/-- `all(...)` with Python short-circuiting. -/
def allIdElems : List YamlValue → Except PyErr Bool
  | [] => .ok true
  | v :: vs => do
    let b ← idElemOk v
    if b then allIdElems vs else pure false

/-- `is_valid_skill_id(frontmatter["id"])` for an arbitrary parsed
value, with Python's exception behaviour: falsy values return `False`
at the `if not skill_id` guard; truthy non-indexable or non-string
values raise. -/
def is_valid_skill_id_val : YamlValue → Except PyErr Bool
  | .str s => .ok (is_valid_skill_id s)
  | .intV n => if n = 0 then .ok false else .error .typeError
  | .boolV b => if b then .error .typeError else .ok false
  | .nullV => .ok false
  | .list [] => .ok false
  | .list (v :: vs) => do
    let b ← pyIslowerElem v
    if b then allIdElems (v :: vs) else pure false
  | .map [] => .ok false
  | .map (_ :: _) => .error .keyError

/-! ## Timestamp check (`validate_skill.py`, `validate_timestamp`)

`validate_timestamp` replaces `'Z'` by `'+00:00'` and asks
`datetime.fromisoformat` to parse.  `fromisoformat` is Python library
code, not repository code; it is modelled here for the ISO-8601 forms
this system exchanges: `YYYY-MM-DD`, optionally followed by a one-char
separator and `HH:MM:SS`, optionally followed by a `±HH:MM` offset,
with full calendar validation (month/day ranges, leap years). -/

def pyReplaceZ : List Char → List Char
  | [] => []
  | c :: rest =>
    if c = 'Z' then '+' :: '0' :: '0' :: ':' :: '0' :: '0' :: pyReplaceZ rest
    else c :: pyReplaceZ rest

def isLeap (y : Nat) : Bool :=
  (y % 4 = 0 && y % 100 ≠ 0) || y % 400 = 0

def daysInMonth (y m : Nat) : Nat :=
  if m = 2 then (if isLeap y then 29 else 28)
  else if m = 4 || m = 6 || m = 9 || m = 11 then 30
  else 31

def digitVal (c : Char) : Nat := c.toNat - 48

def twoDigits (a b : Char) : Nat := 10 * digitVal a + digitVal b

/-- The optional trailing UTC-offset part: empty, or `±HH:MM`. -/
def isoOffsetOk : List Char → Bool
  | [] => true
  | sign :: o1 :: o2 :: ':' :: o3 :: o4 :: [] =>
    (sign = '+' || sign = '-') && o1.isDigit && o2.isDigit && o3.isDigit && o4.isDigit &&
      twoDigits o1 o2 ≤ 23 && twoDigits o3 o4 ≤ 59
  | _ => false

/-- Modelled from the spec: `datetime.fromisoformat` on the forms
above, as a Boolean parse-success predicate. -/
def parseISOOk : List Char → Bool
  | [y1, y2, y3, y4, '-', m1, m2, '-', d1, d2] =>
    y1.isDigit && y2.isDigit && y3.isDigit && y4.isDigit &&
    m1.isDigit && m2.isDigit && d1.isDigit && d2.isDigit &&
    1 ≤ (1000 * digitVal y1 + 100 * digitVal y2 + 10 * digitVal y3 + digitVal y4) &&
    1 ≤ twoDigits m1 m2 && twoDigits m1 m2 ≤ 12 &&
    1 ≤ twoDigits d1 d2 &&
    twoDigits d1 d2 ≤ daysInMonth
      (1000 * digitVal y1 + 100 * digitVal y2 + 10 * digitVal y3 + digitVal y4)
      (twoDigits m1 m2)
  | y1 :: y2 :: y3 :: y4 :: '-' :: m1 :: m2 :: '-' :: d1 :: d2 :: _ :: h1 :: h2 :: ':' ::
      mi1 :: mi2 :: ':' :: s1 :: s2 :: rest =>
    y1.isDigit && y2.isDigit && y3.isDigit && y4.isDigit &&
    m1.isDigit && m2.isDigit && d1.isDigit && d2.isDigit &&
    h1.isDigit && h2.isDigit && mi1.isDigit && mi2.isDigit && s1.isDigit && s2.isDigit &&
    1 ≤ (1000 * digitVal y1 + 100 * digitVal y2 + 10 * digitVal y3 + digitVal y4) &&
    1 ≤ twoDigits m1 m2 && twoDigits m1 m2 ≤ 12 &&
    1 ≤ twoDigits d1 d2 &&
    twoDigits d1 d2 ≤ daysInMonth
      (1000 * digitVal y1 + 100 * digitVal y2 + 10 * digitVal y3 + digitVal y4)
      (twoDigits m1 m2) &&
    twoDigits h1 h2 ≤ 23 && twoDigits mi1 mi2 ≤ 59 && twoDigits s1 s2 ≤ 59 &&
    isoOffsetOk rest
  | _ => false

/-- `validate_timestamp` from `validate_skill.py`. -/
def validate_timestamp (s : String) : Bool :=
  parseISOOk (pyReplaceZ s.data)

/-- `validate_timestamp(frontmatter[field])`: non-strings have no
`.replace` and raise `AttributeError` (which `validate_timestamp`
does not catch — it catches `ValueError` only). -/
def validate_timestamp_val : YamlValue → Except PyErr Bool
  | .str s => .ok (validate_timestamp s)
  | _ => .error .attrError

/-! ## Frontmatter mapping access and remaining field checks -/

def REQUIRED_FIELDS : List String :=
  ["id", "name", "description", "category", "tags", "tool_refs", "workflow_refs",
   "visibility", "version", "created_at", "updated_at"]

def fmHasKey (fm : List (String × YamlValue)) (k : String) : Bool :=
  fm.any (fun kv => kv.1 = k)

/-- `frontmatter[k]` — `KeyError` when absent. -/
def fmGet (fm : List (String × YamlValue)) (k : String) : Except PyErr YamlValue :=
  match fm.find? (fun kv => kv.1 = k) with
  | some kv => .ok kv.2
  | none => .error .keyError

/-- `frontmatter.get(k, default)`. -/
def fmGetD (fm : List (String × YamlValue)) (k : String) (d : YamlValue) : YamlValue :=
  match fm.find? (fun kv => kv.1 = k) with
  | some kv => kv.2
  | none => d

/-- `frontmatter["visibility"] not in VALID_VISIBILITY`, negated:
membership in the set of valid visibilities.  Unhashable values
(lists, dicts) raise `TypeError`. -/
def pyVisMember : YamlValue → Except PyErr Bool
  | .str s => .ok (s = "public" || s = "private")
  | .list _ => .error .typeError
  | .map _ => .error .typeError
  | _ => .ok false

def isYamlList : YamlValue → Bool
  | .list _ => true
  | _ => false

/-- Non-overlapping substring occurrences, Python `str.count`.
`skip` is the number of characters still covered by the previous
counted occurrence (the needle is never empty in use). -/
def pyCountAux (needle : List Char) : Nat → List Char → Nat
  | _, [] => 0
  | k + 1, _ :: rest => pyCountAux needle k rest
  | 0, c :: rest =>
    if needle.isPrefixOf (c :: rest) then 1 + pyCountAux needle (needle.length - 1) rest
    else pyCountAux needle 0 rest

def pyCount (needle l : List Char) : Nat := pyCountAux needle 0 l

/-- `body.count("TODO") + body.count("[TODO")`. -/
def todoCount (body : List Char) : Nat :=
  pyCount ['T', 'O', 'D', 'O'] body + pyCount ['[', 'T', 'O', 'D', 'O'] body

def hasSubstr (needle : List Char) : List Char → Bool
  | [] => needle.isEmpty
  | c :: rest => needle.isPrefixOf (c :: rest) || hasSubstr needle rest

/-- Python `needle in value`: substring test on strings, element
membership on lists, key membership on dicts, `TypeError` otherwise. -/
def pyInVal (needle : String) : YamlValue → Except PyErr Bool
  | .str s => .ok (hasSubstr needle.data s.data)
  | .list xs => .ok (xs.any (fun v => yamlEqStr v needle))
  | .map kvs => .ok (kvs.any (fun kv => kv.1 = needle))
  | _ => .error .typeError

/-- `"TODO" in description or "[TODO" in description` with Python
short-circuiting. -/
def descHasTODO (v : YamlValue) : Except PyErr Bool := do
  let b1 ← pyInVal "TODO" v
  if b1 then pure true else pyInVal "[TODO" v

/-- `len(description)` — `TypeError` on unsized values. -/
def pyLenVal : YamlValue → Except PyErr Nat
  | .str s => .ok s.length
  | .list xs => .ok xs.length
  | .map kvs => .ok kvs.length
  | _ => .error .typeError

/-! ## Report messages (quote punctuation omitted, otherwise verbatim) -/

def missingMsg (f : String) : String := "Missing required field: " ++ f

def mismatchMsg (v : YamlValue) (d : String) : String :=
  "id " ++ pyStr v ++ " does not match folder name " ++ d

def idFmtMsg (v : YamlValue) : String :=
  "Invalid id format " ++ pyStr v ++ ": must be kebab-case starting with lowercase letter"

def visMsg (v : YamlValue) : String :=
  "Invalid visibility " ++ pyStr v ++ ": must be public or private"

def tsMsg (f : String) (v : YamlValue) : String :=
  "Invalid timestamp format for " ++ f ++ ": " ++ pyStr v

def arrMsg (f : String) : String := f ++ " must be an array"

def emptyBodyMsg : String := "SKILL.md body is empty"

def shortBodyWarn : String := "SKILL.md body is very short (< 100 characters)"

def todoBodyWarn (n : Nat) : String :=
  "Found " ++ toString n ++ " TODO markers in body - remember to complete them"

def descTodoWarn : String :=
  "Description contains TODO - this is critical for skill triggering"

def descShortWarn : String :=
  "Description is very short - consider adding more detail for better triggering"

def validMsg (d : String) : String := "[OK] Skill structure is valid: " ++ d

/-! ## The validator -/

/-- The outcome of one `validate_skill` run: the returned truth value,
the accumulated `errors` and `warnings` lists, and the other notices
the run prints (`errors` are printed exactly when the run fails;
`warnings` and the field summary are printed on success). -/
structure Report where
  passed : Bool
  errors : List String
  warnings : List String
  notices : List String
deriving DecidableEq

def fatalReport (msg : String) : Report := ⟨false, [msg], [], []⟩

/-- Lines 171–194 of `validate_skill.py`: the final decision — print
and fail when `errors` is non-empty, otherwise succeed with the
success notice (warnings and the field summary follow). -/
def finishReport (dirName : String) (errors warnings : List String) : Report :=
  if errors ≠ [] then ⟨false, errors, warnings, []⟩
  else ⟨true, errors, warnings, [validMsg dirName]⟩

/-- Lines 116–194 of `validate_skill.py`: everything after the YAML
block has parsed to a mapping.  Collects `errors` and `warnings` in
the statement order of the source; a missing required field returns
early with only the missing-field errors. -/
def validate_parsed (dirName : String) (fm : List (String × YamlValue)) (body : String) :
    Except PyErr Report :=
  let missing := (REQUIRED_FIELDS.filter (fun f => ¬ fmHasKey fm f)).map missingMsg
  if missing ≠ [] then .ok ⟨false, missing, [], []⟩
  else do
    let idv ← fmGet fm "id"
    let e1 := if yamlEqStr idv dirName then [] else [mismatchMsg idv dirName]
    let idOk ← is_valid_skill_id_val idv
    let e2 := if idOk then [] else [idFmtMsg idv]
    let visv ← fmGet fm "visibility"
    let visOk ← pyVisMember visv
    let e3 := if visOk then [] else [visMsg visv]
    let cav ← fmGet fm "created_at"
    let caOk ← validate_timestamp_val cav
    let e4 := if caOk then [] else [tsMsg "created_at" cav]
    let uav ← fmGet fm "updated_at"
    let uaOk ← validate_timestamp_val uav
    let e5 := if uaOk then [] else [tsMsg "updated_at" uav]
    let tagsv ← fmGet fm "tags"
    let e6 := if isYamlList tagsv then [] else [arrMsg "tags"]
    let toolv ← fmGet fm "tool_refs"
    let e7 := if isYamlList toolv then [] else [arrMsg "tool_refs"]
    let wfv ← fmGet fm "workflow_refs"
    let e8 := if isYamlList wfv then [] else [arrMsg "workflow_refs"]
    let e9 := if body = "" then [emptyBodyMsg] else []
    let w1 := if body ≠ "" ∧ body.length < 100 then [shortBodyWarn] else []
    let n := todoCount body.data
    let w2 := if 0 < n then [todoBodyWarn n] else []
    let descv := fmGetD fm "description" (.str "")
    let dTodo ← descHasTODO descv
    let w3 := if dTodo then [descTodoWarn] else []
    let dLen ← pyLenVal descv
    let w4 := if dLen < 50 then [descShortWarn] else []
    let errors := e1 ++ e2 ++ e3 ++ e4 ++ e5 ++ e6 ++ e7 ++ e8 ++ e9
    let warnings := w1 ++ w2 ++ w3 ++ w4
    pure (finishReport dirName errors warnings)

/-- The degraded path (`validate_skill.py` lines 92–107): no PyYAML,
so only the basic structural result plus body heuristics; returns
`True` unconditionally. -/
def basicValidation (dirName body : String) : Report :=
  let w1 :=
    if body = "" then ["[WARN] SKILL.md body is empty"]
    else if body.length < 100 then ["[WARN] SKILL.md body is very short (< 100 characters)"]
    else []
  let n := todoCount body.data
  let w2 := if 0 < n then ["[WARN] Found " ++ toString n ++ " TODO markers in body"] else []
  ⟨true, [], w1 ++ w2,
    ["[OK] Basic validation passed for: " ++ dirName,
     "[INFO] Install PyYAML for full validation: python3 -m pip install pyyaml"]⟩

/-! ## Frontmatter/body split (`validate_skill.py` lines 80–90) -/

def tripleHyphen : List Char := ['-', '-', '-']

/-- One step of Python `str.split(sep, …)`: the text before the first
occurrence of `sep` and the text after it, or `none` when `sep` does
not occur (`sep` is non-empty in every use). -/
def splitFirst (sep : List Char) : List Char → Option (List Char × List Char)
  | [] => none
  | c :: rest =>
    if sep.isPrefixOf (c :: rest) then some ([], (c :: rest).drop sep.length)
    else
      match splitFirst sep rest with
      | none => none
      | some (a, b) => some (c :: a, b)

/-- Python `s.split(sep, 2)`: at most two cut points; everything after
the second occurrence is left intact. -/
def pySplit2 (sep s : List Char) : List (List Char) :=
  match splitFirst sep s with
  | none => [s]
  | some (a, r) =>
    match splitFirst sep r with
    | none => [a, r]
    | some (b, r2) => [a, b, r2]

def startsWithTriple (l : List Char) : Bool := tripleHyphen.isPrefixOf l

/-- Stage 4 of the validator: the document must start with `---`, and
`content.split("---", 2)` must yield three parts; part 1 (stripped) is
the frontmatter block and part 2 (stripped) the body. -/
def split_frontmatter (content : String) : Except String (String × String) :=
  if ¬ startsWithTriple content.data then
    .error "[ERROR] SKILL.md must start with YAML frontmatter (---)"
  else
    match pySplit2 tripleHyphen content.data with
    | [_, a, b] => .ok (⟨pyStrip a⟩, ⟨pyStrip b⟩)
    | _ => .error "[ERROR] Invalid frontmatter format. Expected: ---\n<yaml>\n---\n<body>"

/-- `validate_skill` from the document content on (stages 1–3, the
filesystem stages, have succeeded and produced `content`; `dirName` is
the directory's own name).  `hasYaml` is the `HAS_YAML` flag; `parseFM`
stands for `yaml.safe_load` on the frontmatter block. -/
def validate_skill (hasYaml : Bool) (parseFM : String → Except String YamlValue)
    (dirName : String) (content : String) : Except PyErr Report :=
  match split_frontmatter content with
  | .error m => .ok (fatalReport m)
  | .ok (fmStr, body) =>
    if ¬ hasYaml then .ok (basicValidation dirName body)
    else
      match parseFM fmStr with
      | .error e => .ok (fatalReport ("[ERROR] Invalid YAML frontmatter: " ++ e))
      | .ok (.map fm) => validate_parsed dirName fm body
      | .ok _ => .ok (fatalReport "[ERROR] Frontmatter must be a YAML object")

/-! ## The skill template (`init_skill.py`, `SKILL_TEMPLATE`)

`SKILL_TEMPLATE.format(...)` is pure placeholder substitution; the
rendered document is the concatenation below (the first `---` is the
opening delimiter, `skillFmBlock` the frontmatter block, the second
`---` the closing delimiter, `skillBodyBlock` everything after it —
including the horizontal rule near the end of the template). -/

def skillFmBlock (skill_name skill_title timestamp : String) : String :=
  "\nid: " ++ skill_name ++
  "\nname: " ++ skill_title ++
  "\ndescription: [TODO: Describe what this skill does and WHEN to use it. This is critical for skill triggering. Include specific scenarios, file types, or tasks that should trigger this skill.]" ++
  "\ncategory: [TODO: e.g., development, document, system, etc.]" ++
  "\ntags:\n  - [TODO: tag1]\n  - [TODO: tag2]" ++
  "\ntool_refs: []" ++
  "\nworkflow_refs: []" ++
  "\nvisibility: public" ++
  "\nversion: \"1.0.0\"" ++
  "\ncreated_at: \"" ++ timestamp ++ "\"" ++
  "\nupdated_at: \"" ++ timestamp ++ "\"\n"

def skillBodyBlock (skill_title : String) : String :=
  "\n\n# " ++ skill_title ++
  "\n\n## Overview\n\n[TODO: 1-2 sentences explaining what this skill enables]\n\n## When to Use\n\n[TODO: Specific scenarios that trigger this skill. Examples:\n- \"Use this skill when working with PDF files\"\n- \"Use this skill for code review tasks\"\n- \"Use this skill when analyzing database schemas\"\n]\n\n## Workflow\n\n[TODO: Describe the workflow for using this skill]\n\n### Step 1: [First step]\n\n[Instructions and examples]\n\n### Step 2: [Second step]\n\n[Instructions and examples]\n\n## Resources\n\n[TODO: Reference bundled resources if applicable]\n\n### scripts/\n- `scripts/example.py` - [Description of what this script does]\n\n### references/\n- `references/guide.md` - [Description of reference documentation]\n\n### assets/\n- `assets/template.txt` - [Description of asset files]\n\n---\n\n**Delete TODO sections as you complete them**\n"

/-- `SKILL_TEMPLATE.format(skill_name=…, skill_title=…, timestamp=…)`. -/
def renderSkillMd (skill_name skill_title timestamp : String) : String :=
  "---" ++ skillFmBlock skill_name skill_title timestamp ++
  "---" ++ skillBodyBlock skill_title

/-- `EXAMPLE_SCRIPT.format(skill_name=…)` (the doubled braces of the
Python source render as single literal braces). -/
def exampleScriptText (skill_name : String) : String :=
  "#!/usr/bin/env python3\n\"\"\"\nExample helper script for " ++ skill_name ++
  "\n\nThis is a placeholder script. Replace with actual implementation or delete.\n\nUsage:\n    python3 example.py <input> <output>\n\"\"\"\n\nimport argparse\n\n\ndef main():\n    parser = argparse.ArgumentParser(description=\"Example script for " ++ skill_name ++
  "\")\n    parser.add_argument(\"input\", help=\"Input file\")\n    parser.add_argument(\"output\", help=\"Output file\")\n    args = parser.parse_args()\n\n    # TODO: Add actual script logic here\n    print(f\"Processing \x7bargs.input\x7d -> \x7bargs.output\x7d\")\n\n\nif __name__ == \"__main__\":\n    main()\n"

/-- `EXAMPLE_REFERENCE.format(skill_title=…)`. -/
def exampleReferenceText (skill_title : String) : String :=
  "# Reference Guide for " ++ skill_title ++
  "\n\nThis is placeholder reference documentation. Replace with actual content or delete.\n\n## Purpose\n\n[Describe what information this reference contains]\n\n## When to Read This\n\n[Specify when this reference should be loaded into context]\n\n## Content\n\n[Detailed reference information]\n\n## Examples\n\n[Concrete examples if applicable]\n"

/-- `EXAMPLE_ASSET`. -/
def exampleAssetText : String :=
  "# Example Asset\n\nThis placeholder represents asset files stored in the assets/ directory.\n\nAsset files are NOT loaded into context but are used in the output.\n\nExamples:\n- Templates (pptx, docx)\n- Images (png, jpg, svg)\n- Fonts (ttf, woff2)\n- Boilerplate code directories\n\nReplace this file with actual assets or delete if not needed.\n"

/-! ## Filesystem model and the generator (`init_skill.py`, `init_skill`)

The filesystem is a pure state: the set of existing directories and
the files with their contents.  `Path(path).resolve()` is modelled as
the already-resolved parent path; directory creation succeeds in the
model (the generator's I/O-failure branches return `None` in the
source and are not taken here). -/

structure FS where
  dirs : List String
  files : List (String × String)
deriving DecidableEq

def fsExists (fs : FS) (p : String) : Bool :=
  fs.dirs.any (fun d => d = p) || fs.files.any (fun f => f.1 = p)

def fsAddDir (fs : FS) (p : String) : FS := ⟨p :: fs.dirs, fs.files⟩

def fsWrite (fs : FS) (p content : String) : FS := ⟨fs.dirs, (p, content) :: fs.files⟩

/-- `create_resource_dirs` from `init_skill.py`. -/
def create_resource_dirs (fs : FS) (skill_dir skill_name skill_title : String)
    (resources : List String) (include_examples : Bool) : FS :=
  resources.foldl
    (fun acc r =>
      let rd := skill_dir ++ "/" ++ r
      let acc := fsAddDir acc rd
      if r = "scripts" then
        if include_examples then fsWrite acc (rd ++ "/example.py") (exampleScriptText skill_name)
        else acc
      else if r = "references" then
        if include_examples then fsWrite acc (rd ++ "/guide.md") (exampleReferenceText skill_title)
        else acc
      else if r = "assets" then
        if include_examples then fsWrite acc (rd ++ "/example.txt") exampleAssetText
        else acc
      else acc)
    fs

/-- `init_skill` from `init_skill.py`.  `ts` is the
`datetime.now(timezone.utc).strftime(...)` value, passed in as a
parameter of the run.  Returns the created path (or `None`) together
with the filesystem after the run. -/
def init_skill (fs : FS) (skill_name path ts : String)
    (resources : List String) (include_examples : Bool) : Option String × FS :=
  let skill_dir := path ++ "/" ++ skill_name
  if fsExists fs skill_dir then (none, fs)
  else
    let fs1 := fsAddDir fs skill_dir
    let skill_title := title_case_skill_name skill_name
    let content := renderSkillMd skill_name skill_title ts
    let fs2 := fsWrite fs1 (skill_dir ++ "/SKILL.md") content
    let fs3 :=
      if resources ≠ [] then
        create_resource_dirs fs2 skill_dir skill_name skill_title resources include_examples
      else fs2
    (some skill_dir, fs3)

/-! ## The generator's timestamp

`datetime.now(timezone.utc).strftime("%Y-%m-%dT%H:%M:%SZ")`, modelled
as zero-padded rendering of the clock's components (the wall clock
always provides in-range components and a four-digit year). -/

def digitChar (n : Nat) : Char := Char.ofNat (48 + n % 10)

def pad2 (n : Nat) : List Char := [digitChar (n / 10 % 10), digitChar (n % 10)]

def pad4 (n : Nat) : List Char :=
  [digitChar (n / 1000 % 10), digitChar (n / 100 % 10), digitChar (n / 10 % 10), digitChar (n % 10)]

def strftimeTs (y mo d h mi s : Nat) : String :=
  ⟨pad4 y ++ ['-'] ++ pad2 mo ++ ['-'] ++ pad2 d ++ ['T'] ++ pad2 h ++ [':'] ++ pad2 mi ++
    [':'] ++ pad2 s ++ ['Z']⟩

/-! ## Modelled PyYAML parse of the template frontmatter

`yaml.safe_load` is library code, not repository code.  Its behaviour
on the template's frontmatter block is modelled here: each fixed line
parses to the fixed value written next to it, and the two substituted
plain scalars (`id:`, `name:`) go through YAML 1.1 implicit scalar
resolution, modelled for the alphabets the generator can produce
(lowercase kebab identifiers and their title-cased forms). -/

def yamlTrueWords : List String :=
  ["yes", "Yes", "YES", "true", "True", "TRUE", "on", "On", "ON", "y", "Y"]

def yamlFalseWords : List String :=
  ["no", "No", "NO", "false", "False", "FALSE", "off", "Off", "OFF", "n", "N"]

def yamlNullWords : List String := ["null", "Null", "NULL", "~", ""]

def digitsToNat (l : List Char) : Nat :=
  l.foldl (fun n c => 10 * n + digitVal c) 0

/-- Modelled from the spec: YAML 1.1 implicit resolution of a plain
scalar over the generator's identifier/title alphabet. -/
def resolveScalar (s : String) : YamlValue :=
  if s ∈ yamlNullWords then .nullV
  else if s ∈ yamlTrueWords then .boolV true
  else if s ∈ yamlFalseWords then .boolV false
  else if s ≠ "" ∧ s.data.all Char.isDigit then .intV (digitsToNat s.data)
  else .str s

/-- The parse of the template's `description:` flow sequence. -/
def templateDescription : YamlValue :=
  .list
    [.map [("TODO", .str "Describe what this skill does and WHEN to use it. This is critical for skill triggering. Include specific scenarios")],
     .str "file types",
     .str "or tasks that should trigger this skill."]

/-- The parse of the template's `category:` flow sequence. -/
def templateCategory : YamlValue :=
  .list [.map [("TODO", .str "e.g.")], .str "development", .str "document", .str "system",
         .str "etc."]

/-- The parse of the template's `tags:` block sequence. -/
def templateTags : YamlValue :=
  .list [.list [.map [("TODO", .str "tag1")]], .list [.map [("TODO", .str "tag2")]]]

/-- Modelled from the spec: the mapping `yaml.safe_load` produces from
the frontmatter block rendered by `skillFmBlock name title ts`. -/
def templateFM (name title ts : String) : List (String × YamlValue) :=
  [("id", resolveScalar name),
   ("name", resolveScalar title),
   ("description", templateDescription),
   ("category", templateCategory),
   ("tags", templateTags),
   ("tool_refs", .list []),
   ("workflow_refs", .list []),
   ("visibility", .str "public"),
   ("version", .str "1.0.0"),
   ("created_at", .str ts),
   ("updated_at", .str ts)]

/-- The modelled `yaml.safe_load` as used in the round-trip theorems:
on the (unique) frontmatter block the generator hands it, it returns
`templateFM`. -/
def pyyamlTemplate (name title ts : String) : String → Except String YamlValue :=
  fun _ => .ok (.map (templateFM name title ts))

/-! ## Spec-side definitions (from the spec's words, for comparison)

These follow §3 of the spec, not the source, and are only ever
compared against the source-derived definitions above. -/

def noDoubleHyphen : List Char → Bool
  | [] => true
  | [_] => true
  | a :: b :: rest => !(a = '-' && b = '-') && noDoubleHyphen (b :: rest)

/-- A canonical identifier: non-empty, only `[a-z0-9-]`, no leading,
trailing or consecutive hyphens. -/
def isCanonicalIdent (s : String) : Bool :=
  s ≠ "" && s.data.all isIdChar &&
  s.data.head? ≠ some '-' && s.data.getLast? ≠ some '-' &&
  noDoubleHyphen s.data

/-- The spec's Skill Identifier grammar (§3): canonical and at most 64
characters. -/
def skillIdGrammar (s : String) : Bool :=
  isCanonicalIdent s && s.length ≤ 64

end SkillPkg

namespace SkillPkg

/-! ## Concrete instances used in the theorems -/

def goodTs : String := "2024-01-01T00:00:00Z"

def goodDesc : String :=
  "A sufficiently detailed description of what this does and when it should trigger."

/-- A frontmatter mapping with every required field present, a chosen
id value and a chosen visibility, and otherwise unobjectionable
values. -/
def sampleFM (idv : YamlValue) (vis : String) : List (String × YamlValue) :=
  [("id", idv), ("name", .str "Demo"), ("description", .str goodDesc),
   ("category", .str "misc"), ("tags", .list []), ("tool_refs", .list []),
   ("workflow_refs", .list []), ("visibility", .str vis), ("version", .str "1.0.0"),
   ("created_at", .str goodTs), ("updated_at", .str goodTs)]

/-- A body long enough to trigger no warnings and containing no TODO
markers. -/
def sampleBody : String :=
  "This body is long enough to pass every validator heuristic without any warnings at all, for use in concrete examples."

/-- A frontmatter missing the required `name` field and carrying an
invalid `visibility`, to probe the collect-all behaviour. -/
def c2CexFM : List (String × YamlValue) :=
  [("id", .str "demo"), ("description", .str goodDesc), ("category", .str "misc"),
   ("tags", .list []), ("tool_refs", .list []), ("workflow_refs", .list []),
   ("visibility", .str "banana"), ("version", .str "1.0.0"),
   ("created_at", .str goodTs), ("updated_at", .str goodTs)]

/-- A document whose frontmatter block carries none of the required
fields. -/
def c3Doc : String := "---\nfoo: 1\n---\nsome body"

/-- The parse of `c3Doc`'s frontmatter block (modelled `safe_load`). -/
def c3Parser : String → Except String YamlValue := fun _ => .ok (.map [("foo", .intV 1)])

/-- Three consecutive hyphens occur somewhere in the list (an
occurrence of the `---` delimiter). -/
def hasTriple : List Char → Bool
  | a :: b :: c :: rest => (a = '-' && b = '-' && c = '-') || hasTriple (b :: c :: rest)
  | _ => false

/-- The spec's constraint table (§3), read off independently of the
implementation: the report line each violated constraint contributes,
in the order of the table, for a frontmatter whose id, visibility and
timestamps are strings. -/
def collectAllErrors (d ids vis ca ua : String) (tagsv toolv wfv : YamlValue)
    (body : String) : List String :=
  (if ids = d then [] else [mismatchMsg (.str ids) d]) ++
  (if is_valid_skill_id ids then [] else [idFmtMsg (.str ids)]) ++
  (if vis = "public" ∨ vis = "private" then [] else [visMsg (.str vis)]) ++
  (if validate_timestamp ca then [] else [tsMsg "created_at" (.str ca)]) ++
  (if validate_timestamp ua then [] else [tsMsg "updated_at" (.str ua)]) ++
  (if isYamlList tagsv then [] else [arrMsg "tags"]) ++
  (if isYamlList toolv then [] else [arrMsg "tool_refs"]) ++
  (if isYamlList wfv then [] else [arrMsg "workflow_refs"]) ++
  (if body = "" then [emptyBodyMsg] else [])

/-- The first character of the string is a lowercase ASCII letter. -/
def firstIsLower (s : String) : Bool :=
  match s.data with
  | [] => false
  | c :: _ => c.isLower

/-- The string is not one of the YAML 1.1 keyword scalars (boolean or
null words), so implicit resolution leaves it a string. -/
def notYamlKeyword (s : String) : Bool :=
  !(yamlTrueWords.contains s || yamlFalseWords.contains s || yamlNullWords.contains s)

/-- The validator's run on the document the generator renders for the
normalized name `9a` (which `checkSkillName` accepts). -/
def c1CexRun : Except PyErr Report :=
  validate_skill true (pyyamlTemplate "9a" (title_case_skill_name "9a") goodTs) "9a"
    (renderSkillMd "9a" (title_case_skill_name "9a") goodTs)

/-! ## Lemmas about the normalizer -/

lemma isLowerAlnum_ne_hyphen {c : Char} (h : isLowerAlnum c = true) : c ≠ '-' := by
  rintro rfl; simp [isLowerAlnum, Char.isLower, Char.isDigit] at h

lemma noDoubleHyphen_cons {x : Char} {xs : List Char}
    (hxs : noDoubleHyphen xs = true)
    (hhd : xs.head? = some '-' → x ≠ '-') :
    noDoubleHyphen (x :: xs) = true := by
  cases xs with
  | nil => rfl
  | cons b rest =>
    simp only [noDoubleHyphen, Bool.and_eq_true, beq_iff_eq] at *
    refine ⟨?_, hxs⟩
    simp only [List.head?_cons] at hhd
    by_cases hb : b = '-'
    · have := hhd (by rw [hb])
      simp [this]
    · simp [hb]

lemma subRunsAux_true_head (l : List Char) :
    (subRunsAux true l).head? ≠ some '-' := by
  induction l with
  | nil => simp [subRunsAux]
  | cons c rest ih =>
    simp only [subRunsAux]
    by_cases h : isLowerAlnum c = true
    · simp [h, isLowerAlnum_ne_hyphen h]
    · simp [h, ih]

lemma subRunsAux_noDD (l : List Char) :
    ∀ flag, noDoubleHyphen (subRunsAux flag l) = true := by
  induction l with
  | nil => intro flag; rfl
  | cons c rest ih =>
    intro flag
    simp only [subRunsAux]
    by_cases h : isLowerAlnum c = true
    · simp only [h, if_true]
      refine noDoubleHyphen_cons (ih false) ?_
      intro _; exact isLowerAlnum_ne_hyphen h
    · simp only [h]
      cases flag with
      | true => simpa using ih true
      | false =>
        simp only [if_false, Bool.false_eq_true]
        refine noDoubleHyphen_cons (ih true) ?_
        intro hh
        exact absurd hh (subRunsAux_true_head rest)

lemma subRunsAux_chars {l : List Char} {flag : Bool} {c : Char}
    (h : c ∈ subRunsAux flag l) : isIdChar c = true := by
  induction l generalizing flag with
  | nil => simp [subRunsAux] at h
  | cons a rest ih =>
    simp only [subRunsAux] at h
    by_cases ha : isLowerAlnum a = true
    · simp only [ha, if_true, List.mem_cons] at h
      rcases h with rfl | h
      · simp [isIdChar, ha]
      · exact ih h
    · simp only [ha] at h
      cases flag with
      | true => simp only [if_true] at h; exact ih h
      | false =>
        simp only [Bool.false_eq_true, if_false, List.mem_cons] at h
        rcases h with rfl | h
        · simp [isIdChar]
        · exact ih h

end SkillPkg

namespace SkillPkg

lemma noDoubleHyphen_append_right {a b : List Char}
    (h : noDoubleHyphen (a ++ b) = true) : noDoubleHyphen b = true := by
  induction a with
  | nil => exact h
  | cons x xs ih =>
    apply ih
    cases xs with
    | nil =>
      cases b with
      | nil => rfl
      | cons y ys => simp only [List.cons_append, List.nil_append, noDoubleHyphen,
          Bool.and_eq_true] at h; exact h.2
    | cons z zs => simp only [List.cons_append, noDoubleHyphen, Bool.and_eq_true] at h
                   exact h.2

lemma noDoubleHyphen_append_left {a b : List Char}
    (h : noDoubleHyphen (a ++ b) = true) : noDoubleHyphen a = true := by
  induction a with
  | nil => rfl
  | cons x xs ih =>
    cases xs with
    | nil => rfl
    | cons z zs =>
      simp only [List.cons_append, noDoubleHyphen, Bool.and_eq_true] at h ⊢
      exact ⟨h.1, ih h.2⟩

lemma dropWhile_suffix_decomp (p : Char → Bool) (l : List Char) :
    ∃ t, l = t ++ l.dropWhile p := by
  induction l with
  | nil => exact ⟨[], rfl⟩
  | cons c rest ih =>
    cases hp : p c with
    | true =>
      obtain ⟨t, ht⟩ := ih
      refine ⟨c :: t, ?_⟩
      simp only [List.dropWhile_cons, hp, if_true, List.cons_append]
      exact congrArg (c :: ·) ht
    | false =>
      refine ⟨[], ?_⟩
      simp [List.dropWhile_cons, hp]

lemma dropEndWhile_prefix_decomp (p : Char → Bool) (l : List Char) :
    ∃ t, l = dropEndWhile p l ++ t := by
  obtain ⟨t, ht⟩ := dropWhile_suffix_decomp p l.reverse
  refine ⟨t.reverse, ?_⟩
  have := congrArg List.reverse ht
  simpa [dropEndWhile] using this

lemma head?_dropWhile_false {p : Char → Bool} {l : List Char} {c : Char}
    (h : (l.dropWhile p).head? = some c) : p c = false := by
  induction l with
  | nil => simp at h
  | cons a rest ih =>
    cases ha : p a with
    | true => simp only [List.dropWhile_cons, ha, if_true] at h; exact ih h
    | false =>
      simp only [List.dropWhile_cons, ha, Bool.false_eq_true, if_false] at h
      simp only [List.head?_cons, Option.some_inj] at h
      subst h; exact ha

lemma getLast?_dropEndWhile_false {p : Char → Bool} {l : List Char} {c : Char}
    (h : (dropEndWhile p l).getLast? = some c) : p c = false := by
  have h2 : (l.reverse.dropWhile p).head? = some c := by
    have := h
    rw [dropEndWhile] at this
    rwa [List.getLast?_reverse] at this
  exact head?_dropWhile_false h2

lemma mem_dropEndWhile {p : Char → Bool} {l : List Char} {c : Char}
    (h : c ∈ dropEndWhile p l) : c ∈ l := by
  rw [dropEndWhile, List.mem_reverse] at h
  exact List.mem_reverse.mp (List.Sublist.mem h (List.dropWhile_sublist p))

end SkillPkg

namespace SkillPkg

lemma noDoubleHyphen_tail {c : Char} {rest : List Char}
    (h : noDoubleHyphen (c :: rest) = true) : noDoubleHyphen rest = true := by
  cases rest with
  | nil => rfl
  | cons b bs => simp only [noDoubleHyphen, Bool.and_eq_true] at h; exact h.2

lemma noDoubleHyphen_cons_head {c : Char} {b : Char} {bs : List Char}
    (h : noDoubleHyphen (c :: b :: bs) = true) (hc : c = '-') : b ≠ '-' := by
  subst hc
  simp only [noDoubleHyphen, Bool.and_eq_true, Bool.not_eq_true] at h
  intro hb
  subst hb
  simp at h

lemma collapseHyphensAux_id (l : List Char) (h : noDoubleHyphen l = true) :
    collapseHyphensAux false l = l ∧ (l.head? ≠ some '-' → collapseHyphensAux true l = l) := by
  induction l with
  | nil => exact ⟨rfl, fun _ => rfl⟩
  | cons c rest ih =>
    obtain ⟨ih1, ih2⟩ := ih (noDoubleHyphen_tail h)
    by_cases hc : c = '-'
    · subst hc
      constructor
      · simp only [collapseHyphensAux, if_pos rfl]
        have hrest : rest.head? ≠ some '-' := by
          cases rest with
          | nil => simp
          | cons b bs =>
            simp only [List.head?_cons, ne_eq, Option.some_inj]
            exact noDoubleHyphen_cons_head h rfl
        rw [ih2 hrest]
        simp
      · intro hh; simp at hh
    · constructor
      · simp only [collapseHyphensAux, if_neg hc, ih1]
      · intro _; simp only [collapseHyphensAux, if_neg hc, ih1]

lemma isCanonicalIdent_of_parts {l : List Char} (hne : l ≠ [])
    (hchars : ∀ c ∈ l, isIdChar c = true)
    (hhd : l.head? ≠ some '-') (hlast : l.getLast? ≠ some '-')
    (hdd : noDoubleHyphen l = true) :
    isCanonicalIdent ⟨l⟩ = true := by
  simp only [isCanonicalIdent, Bool.and_eq_true, decide_eq_true_eq, List.all_eq_true]
  refine ⟨⟨⟨⟨?_, ?_⟩, ?_⟩, ?_⟩, hdd⟩
  · intro hs
    exact hne (congrArg String.data hs)
  · intro c hc
    exact hchars c hc
  · exact hhd
  · exact hlast

/-- The core invariant of the normalizer pipeline: the output is empty
or canonical. -/
lemma normalize_canonical (s : String) :
    normalize_skill_name s = "" ∨ isCanonicalIdent (normalize_skill_name s) = true := by
  unfold normalize_skill_name
  set m := subRunsAux false ((pyStrip s.data).map Char.toLower) with hm
  have hmDD : noDoubleHyphen m = true := subRunsAux_noDD _ false
  set dw := m.dropWhile (· = '-') with hdw
  set st := pyStripHyphens m with hst
  have hdwDD : noDoubleHyphen dw = true := by
    obtain ⟨t, ht⟩ := dropWhile_suffix_decomp (· = '-') m
    rw [ht] at hmDD
    exact noDoubleHyphen_append_right hmDD
  have hstdec : ∃ t, dw = st ++ t := by
    have := dropEndWhile_prefix_decomp (· = '-') dw
    simpa [hst, pyStripHyphens, hdw] using this
  have hstDD : noDoubleHyphen st = true := by
    obtain ⟨t, ht⟩ := hstdec
    rw [ht] at hdwDD
    exact noDoubleHyphen_append_left hdwDD
  have hcoll := (collapseHyphensAux_id st hstDD).1
  rw [hcoll]
  cases hemp : st with
  | nil => left; rfl
  | cons x xs =>
    right
    refine isCanonicalIdent_of_parts (by simp [hemp]) ?_ ?_ ?_ (hemp ▸ hstDD)
    · intro c hc
      have hc2 : c ∈ m := by
        have h1 : c ∈ st := hemp ▸ hc
        have h2 : c ∈ dw := by
          obtain ⟨t, ht⟩ := hstdec
          rw [ht]; exact List.mem_append_left _ h1
        exact List.Sublist.mem h2 (List.dropWhile_sublist _)
      exact subRunsAux_chars hc2
    · have hx : dw.head? = some x := by
        obtain ⟨t, ht⟩ := hstdec
        rw [ht, hemp]
        simp
      have := head?_dropWhile_false hx
      simp only [hemp, List.head?_cons, ne_eq, Option.some_inj]
      intro hxe
      rw [hxe] at this
      simp at this
    · cases hl : (x :: xs).getLast? with
      | none => simp
      | some y =>
        have hdef : st.getLast? = some y := by rw [hemp, hl]
        have hy : (dropEndWhile (· = '-') dw).getLast? = some y := hdef
        have := getLast?_dropEndWhile_false hy
        simp only [ne_eq, Option.some_inj]
        intro hye
        rw [hye] at this
        simp at this

end SkillPkg

namespace SkillPkg

lemma idChar_not_ws {c : Char} (h : isIdChar c = true) : isPyWs c = false := by
  cases hw : isPyWs c with
  | false => rfl
  | true =>
    exfalso
    simp only [isPyWs, Bool.or_eq_true, decide_eq_true_eq] at hw
    rcases hw with ((((rfl | rfl) | rfl) | rfl) | rfl) | rfl <;>
      simp [isIdChar, isLowerAlnum] at h

lemma toLower_id_of_idChar {c : Char} (h : isIdChar c = true) : c.toLower = c := by
  simp only [isIdChar, isLowerAlnum, Bool.or_eq_true, Char.isLower, Char.isDigit,
    decide_eq_true_eq, Bool.and_eq_true] at h
  rcases h with (⟨h1, _⟩ | ⟨_, h2⟩) | h1
  · have hn : 97 ≤ c.toNat := UInt32.le_toNat_of_le (by norm_num) h1
    unfold Char.toLower
    rw [if_neg]
    rintro ⟨_, hb⟩
    omega
  · have hn : c.toNat ≤ 57 := UInt32.toNat_le_of_le (by norm_num) h2
    unfold Char.toLower
    rw [if_neg]
    rintro ⟨ha, _⟩
    omega
  · subst h1
    decide

lemma map_toLower_id {l : List Char} (h : ∀ c ∈ l, isIdChar c = true) :
    l.map Char.toLower = l := by
  induction l with
  | nil => rfl
  | cons c rest ih =>
    simp only [List.map_cons]
    rw [toLower_id_of_idChar (h c (List.mem_cons_self c rest)),
      ih (fun d hd => h d (List.mem_cons_of_mem c hd))]

lemma dropWhile_all_false {p : Char → Bool} {l : List Char}
    (h : ∀ c ∈ l, p c = false) : l.dropWhile p = l := by
  cases l with
  | nil => rfl
  | cons c rest => simp [List.dropWhile_cons, h c (List.mem_cons_self c rest)]

lemma dropEndWhile_all_false {p : Char → Bool} {l : List Char}
    (h : ∀ c ∈ l, p c = false) : dropEndWhile p l = l := by
  rw [dropEndWhile, dropWhile_all_false (fun c hc => h c (List.mem_reverse.mp hc)),
    List.reverse_reverse]

lemma dropWhile_head_false {p : Char → Bool} {l : List Char}
    (h : ∀ c, l.head? = some c → p c = false) : l.dropWhile p = l := by
  cases l with
  | nil => rfl
  | cons c rest => simp [List.dropWhile_cons, h c rfl]

lemma dropEndWhile_last_false {p : Char → Bool} {l : List Char}
    (h : ∀ c, l.getLast? = some c → p c = false) : dropEndWhile p l = l := by
  rw [dropEndWhile, dropWhile_head_false (fun c hc => h c (by rwa [List.head?_reverse] at hc)),
    List.reverse_reverse]

lemma subRunsAux_id {l : List Char} (hchars : ∀ c ∈ l, isIdChar c = true)
    (hdd : noDoubleHyphen l = true) :
    subRunsAux false l = l ∧ (l.head? ≠ some '-' → subRunsAux true l = l) := by
  induction l with
  | nil => exact ⟨rfl, fun _ => rfl⟩
  | cons c rest ih =>
    obtain ⟨ih1, ih2⟩ := ih (fun d hd => hchars d (List.mem_cons_of_mem c hd))
      (noDoubleHyphen_tail hdd)
    cases ha : isLowerAlnum c with
    | true =>
      constructor
      · simp only [subRunsAux, ha, if_true, ih1]
      · intro _; simp only [subRunsAux, ha, if_true, ih1]
    | false =>
      have hc : c = '-' := by
        have := hchars c (List.mem_cons_self c rest)
        simp only [isIdChar, ha, Bool.false_or, decide_eq_true_eq] at this
        exact this
      subst hc
      constructor
      · simp only [subRunsAux, ha, Bool.false_eq_true, if_false]
        have hrest : rest.head? ≠ some '-' := by
          cases rest with
          | nil => simp
          | cons b bs =>
            simp only [List.head?_cons, ne_eq, Option.some_inj]
            exact noDoubleHyphen_cons_head hdd rfl
        rw [ih2 hrest]
      · intro hh; simp at hh

lemma normalize_fixed {t : String} (h : isCanonicalIdent t = true) :
    normalize_skill_name t = t := by
  simp only [isCanonicalIdent, Bool.and_eq_true, decide_eq_true_eq, List.all_eq_true] at h
  obtain ⟨⟨⟨⟨hne, hchars⟩, hhd⟩, hlast⟩, hdd⟩ := h
  have hchars' : ∀ c ∈ t.data, isIdChar c = true := fun c hc => hchars c hc
  have h1 : pyStrip t.data = t.data := by
    rw [pyStrip, dropWhile_all_false (fun c hc => idChar_not_ws (hchars' c hc)),
      dropEndWhile_all_false (fun c hc => idChar_not_ws (hchars' c hc))]
  have h2 : (t.data).map Char.toLower = t.data := map_toLower_id hchars'
  have hhead : ∀ c : Char, t.data.head? = some c → decide (c = '-') = false := by
    intro c hc
    rw [hc] at hhd
    simp only [ne_eq, Option.some_inj] at hhd
    simpa using hhd
  have hlastc : ∀ c : Char, t.data.getLast? = some c → decide (c = '-') = false := by
    intro c hc
    rw [hc] at hlast
    simp only [ne_eq, Option.some_inj] at hlast
    simpa using hlast
  have hdw : t.data.dropWhile (fun c => decide (c = '-')) = t.data :=
    dropWhile_head_false hhead
  have h4 : pyStripHyphens t.data = t.data := by
    rw [pyStripHyphens, hdw]
    exact dropEndWhile_last_false hlastc
  unfold normalize_skill_name
  rw [h1, h2, (subRunsAux_id hchars' hdd).1, h4, (collapseHyphensAux_id t.data hdd).1]

end SkillPkg

namespace SkillPkg

/-- C7: every non-error result of the Normalizer contains only
characters from `[a-z0-9-]` with no leading, trailing, or consecutive
hyphens; `normalize("My Cool Skill!!") = "my-cool-skill"` and
`normalize("  ---API---") = "api"`; an empty result or a result longer
than 64 characters is an input error. -/
theorem c7_normalizer_output :
    (∀ s : String,
      normalize_skill_name s = "" ∨ isCanonicalIdent (normalize_skill_name s) = true) ∧
    normalize_skill_name "My Cool Skill!!" = "my-cool-skill" ∧
    normalize_skill_name "  ---API---" = "api" ∧
    (∀ s : String,
      (checkSkillName s).toOption = none ↔
        (normalize_skill_name s = "" ∨ 64 < (normalize_skill_name s).length)) := by
  refine ⟨normalize_canonical, by decide, by decide, ?_⟩
  intro s
  by_cases h1 : normalize_skill_name s = ""
  · simp [checkSkillName, h1, Except.toOption]
  · by_cases h2 : 64 < (normalize_skill_name s).length
    · have h2' : MAX_SKILL_NAME_LENGTH < (normalize_skill_name s).length := h2
      simp [checkSkillName, h1, h2, h2', Except.toOption]
    · have h2' : ¬ MAX_SKILL_NAME_LENGTH < (normalize_skill_name s).length := h2
      simp [checkSkillName, h1, h2, h2', Except.toOption]

/-- C8: normalization is idempotent, and a string already satisfying
the Skill Identifier grammar normalizes to itself. -/
theorem c8_normalize_idempotent :
    (∀ s : String, normalize_skill_name (normalize_skill_name s) = normalize_skill_name s) ∧
    (∀ s : String, skillIdGrammar s = true → normalize_skill_name s = s) := by
  constructor
  · intro s
    rcases normalize_canonical s with h | h
    · rw [h]; rfl
    · exact normalize_fixed h
  · intro s h
    simp only [skillIdGrammar, Bool.and_eq_true] at h
    exact normalize_fixed h.1

/-- Witness for C8 at a concrete grammar-valid identifier. -/
theorem c8_normalize_idempotent_witness :
    skillIdGrammar "my-skill" = true ∧ normalize_skill_name "my-skill" = "my-skill" :=
  ⟨by decide, c8_normalize_idempotent.2 "my-skill" (by decide)⟩

end SkillPkg

namespace SkillPkg

lemma mem_insertSorted {x y : String} {l : List String} :
    x ∈ insertSorted y l ↔ x = y ∨ x ∈ l := by
  induction l with
  | nil => simp [insertSorted]
  | cons z zs ih =>
    simp only [insertSorted]
    by_cases h : strLtb y z = true
    · simp [h]
    · rw [if_neg h]
      simp only [List.mem_cons, ih]
      tauto

lemma mem_sortStrings {x : String} {l : List String} :
    x ∈ sortStrings l ↔ x ∈ l := by
  induction l with
  | nil => simp [sortStrings]
  | cons z zs ih =>
    simp only [sortStrings, List.foldr_cons] at *
    rw [mem_insertSorted, ih]
    simp

lemma insertSorted_ne_nil {y : String} {l : List String} : insertSorted y l ≠ [] := by
  cases l with
  | nil => simp [insertSorted]
  | cons z zs =>
    simp only [insertSorted]
    by_cases h : strLtb y z = true
    · simp [h]
    · simp [if_neg h]

lemma sortStrings_eq_nil_iff {l : List String} : sortStrings l = [] ↔ l = [] := by
  cases l with
  | nil => simp [sortStrings]
  | cons z zs =>
    simp only [sortStrings, List.foldr_cons]
    constructor
    · intro h; exact absurd h insertSorted_ne_nil
    · intro h; cases h

lemma mem_dedupeFirstAux {x : String} {seen l : List String} :
    x ∈ dedupeFirstAux seen l ↔ (x ∈ l ∧ x ∉ seen) := by
  induction l generalizing seen with
  | nil => simp [dedupeFirstAux]
  | cons y ys ih =>
    simp only [dedupeFirstAux]
    by_cases hy : y ∈ seen
    · rw [if_pos hy, ih]
      simp only [List.mem_cons]
      constructor
      · rintro ⟨h1, h2⟩; exact ⟨Or.inr h1, h2⟩
      · rintro ⟨h1 | h1, h2⟩
        · subst h1; exact absurd hy h2
        · exact ⟨h1, h2⟩
    · rw [if_neg hy]
      simp only [List.mem_cons, ih, List.mem_cons, not_or]
      constructor
      · rintro (rfl | ⟨h1, h2, h3⟩)
        · exact ⟨Or.inl rfl, hy⟩
        · exact ⟨Or.inr h1, h3⟩
      · rintro ⟨rfl | h1, h2⟩
        · exact Or.inl rfl
        · by_cases hxy : x = y
          · exact Or.inl hxy
          · exact Or.inr ⟨h1, hxy, h2⟩

lemma mem_dedupeFirst {x : String} {l : List String} :
    x ∈ dedupeFirst l ↔ x ∈ l := by
  rw [dedupeFirst, mem_dedupeFirstAux]
  simp

lemma nodup_dedupeFirstAux {seen l : List String} : (dedupeFirstAux seen l).Nodup := by
  induction l generalizing seen with
  | nil => simp [dedupeFirstAux]
  | cons y ys ih =>
    simp only [dedupeFirstAux]
    by_cases hy : y ∈ seen
    · rw [if_pos hy]; exact ih
    · rw [if_neg hy]
      refine List.nodup_cons.mpr ⟨?_, ih⟩
      rw [mem_dedupeFirstAux]
      rintro ⟨_, h2⟩
      exact h2 (List.mem_cons_self y seen)

lemma dedupeFirst_eq_nil_iff {l : List String} : dedupeFirst l = [] ↔ l = [] := by
  constructor
  · intro h
    cases hl : l with
    | nil => rfl
    | cons y ys =>
      exfalso
      have : y ∈ dedupeFirst l := mem_dedupeFirst.mpr (by rw [hl]; exact List.mem_cons_self y ys)
      rw [h] at this
      cases this
  · rintro rfl; rfl

end SkillPkg

namespace SkillPkg

/-- C9: resource selection parsing: comma split, token trimming, empty
tokens dropped, first-seen deduplication, empty input accepted, and an
error listing exactly the unrecognized tokens together with the
allowed set. -/
theorem c9_parse_resources :
    parse_resources "" = .ok [] ∧
    parse_resources "scripts,scripts,assets" = .ok ["scripts", "assets"] ∧
    parse_resources "scriptz" = .error (["scriptz"], ["assets", "references", "scripts"]) ∧
    (∀ raw, (∀ t ∈ resourceTokens raw, t ∈ ALLOWED_RESOURCES) →
      parse_resources raw = .ok (dedupeFirst (resourceTokens raw))) ∧
    (∀ raw l, parse_resources raw = .ok l → l.Nodup ∧ ∀ x ∈ l, x ∈ ALLOWED_RESOURCES) ∧
    (∀ raw inv allowed, parse_resources raw = .error (inv, allowed) →
      (∀ t, t ∈ inv ↔ (t ∈ resourceTokens raw ∧ t ∉ ALLOWED_RESOURCES)) ∧
      allowed = ["assets", "references", "scripts"]) := by
  have hunk : ∀ t : String, isUnknownResource t = true ↔ t ∉ ALLOWED_RESOURCES := by
    intro t; simp [isUnknownResource]
  refine ⟨by decide, by decide, by decide, ?_, ?_, ?_⟩
  · intro raw h
    by_cases hr : raw = ""
    · subst hr; decide
    · have hfil : (resourceTokens raw).filter isUnknownResource = [] := by
        rw [List.filter_eq_nil_iff]
        intro t ht hunkt
        exact ((hunk t).mp hunkt) (h t ht)
      rw [parse_resources, if_neg hr]
      simp only [hfil]
      rfl
  · intro raw l h
    by_cases hr : raw = ""
    · subst hr
      have : parse_resources "" = .ok [] := rfl
      rw [this] at h
      cases h
      exact ⟨List.nodup_nil, by simp⟩
    · rw [parse_resources, if_neg hr] at h
      by_cases hinv : sortStrings (dedupeFirst
          ((resourceTokens raw).filter isUnknownResource)) = []
      · rw [if_neg (by simpa using hinv)] at h
        cases h
        refine ⟨nodup_dedupeFirstAux, ?_⟩
        intro x hx
        have hxt : x ∈ resourceTokens raw := mem_dedupeFirst.mp hx
        have hfil : (resourceTokens raw).filter isUnknownResource = [] :=
          dedupeFirst_eq_nil_iff.mp (sortStrings_eq_nil_iff.mp hinv)
        have := List.filter_eq_nil_iff.mp hfil x hxt
        by_contra hna
        exact this ((hunk x).mpr hna)
      · rw [if_pos (by simpa using hinv)] at h
        cases h
  · intro raw inv allowed h
    by_cases hr : raw = ""
    · have : parse_resources "" = .ok [] := rfl
      rw [hr, this] at h
      cases h
    · rw [parse_resources, if_neg hr] at h
      by_cases hinv : sortStrings (dedupeFirst
          ((resourceTokens raw).filter isUnknownResource)) = []
      · rw [if_neg (by simpa using hinv)] at h
        cases h
      · rw [if_pos (by simpa using hinv)] at h
        cases h
        constructor
        · intro t
          rw [mem_sortStrings, mem_dedupeFirst, List.mem_filter, hunk]
        · decide

/-- Witness for C9: the universally quantified, hypothesis-bearing
parts applied at concrete inputs. -/
theorem c9_parse_resources_witness :
    parse_resources "assets, scripts" = .ok (dedupeFirst (resourceTokens "assets, scripts")) ∧
    ((["scripts", "assets"] : List String).Nodup ∧
      ∀ x ∈ (["scripts", "assets"] : List String), x ∈ ALLOWED_RESOURCES) ∧
    ((∀ t, t ∈ (["scriptz"] : List String) ↔
        (t ∈ resourceTokens "scriptz" ∧ t ∉ ALLOWED_RESOURCES)) ∧
      (["assets", "references", "scripts"] : List String) =
        ["assets", "references", "scripts"]) :=
  ⟨c9_parse_resources.2.2.2.1 "assets, scripts" (by decide),
   c9_parse_resources.2.2.2.2.1 "scripts,scripts,assets" ["scripts", "assets"] (by decide),
   c9_parse_resources.2.2.2.2.2 "scriptz" ["scriptz"] ["assets", "references", "scripts"]
     (by decide)⟩

end SkillPkg

namespace SkillPkg

lemma ebind_ok {ε α β : Type} (a : α) (f : α → Except ε β) :
    (Except.ok a : Except ε α) >>= f = f a := rfl

lemma hasTriple_tail {c : Char} {l : List Char} (h : hasTriple (c :: l) = false) :
    hasTriple l = false := by
  cases l with
  | nil => rfl
  | cons b bs =>
    cases bs with
    | nil => rfl
    | cons d rest =>
      simp only [hasTriple, Bool.or_eq_false_iff] at h
      exact h.2

lemma hasTriple_append_mono {x z : List Char} (h : hasTriple x = true) :
    hasTriple (x ++ z) = true := by
  induction x with
  | nil => cases h
  | cons c rest ih =>
    cases rest with
    | nil => cases h
    | cons b bs =>
      cases bs with
      | nil => cases h
      | cons d ds =>
        simp only [hasTriple, Bool.or_eq_true] at h
        rcases h with h | h
        · simp only [List.cons_append, hasTriple, Bool.or_eq_true]
          left
          exact h
        · have := ih h
          simp only [List.cons_append, hasTriple, Bool.or_eq_true] at this ⊢
          right
          simpa using this

lemma triple_prefix_hasTriple {l : List Char} (h : tripleHyphen.isPrefixOf l = true) :
    hasTriple l = true := by
  cases l with
  | nil => simp [tripleHyphen, List.isPrefixOf] at h
  | cons a t =>
    cases t with
    | nil => simp [tripleHyphen, List.isPrefixOf] at h
    | cons b t2 =>
      cases t2 with
      | nil => simp [tripleHyphen, List.isPrefixOf] at h
      | cons c t3 =>
        simp only [tripleHyphen, List.isPrefixOf, Bool.and_eq_true, beq_iff_eq] at h
        obtain ⟨ha, hb, hc, -⟩ := h
        subst ha; subst hb; subst hc
        simp [hasTriple]

lemma hasTriple_prefix_window {c : Char} {x' y : List Char}
    (h : tripleHyphen.isPrefixOf ((c :: x') ++ tripleHyphen ++ y) = true) :
    hasTriple ((c :: x') ++ ['-', '-']) = true := by
  cases x' with
  | nil =>
    simp only [List.cons_append, List.nil_append, tripleHyphen, List.isPrefixOf,
      Bool.and_eq_true, beq_iff_eq] at h
    obtain ⟨h1, -⟩ := h
    subst h1
    simp [hasTriple]
  | cons d x'' =>
    cases x'' with
    | nil =>
      simp only [List.cons_append, List.nil_append, tripleHyphen, List.isPrefixOf,
        Bool.and_eq_true, beq_iff_eq] at h
      obtain ⟨h1, h2, -⟩ := h
      subst h1; subst h2
      simp [hasTriple]
    | cons e x3 =>
      simp only [List.cons_append, tripleHyphen, List.isPrefixOf,
        Bool.and_eq_true, beq_iff_eq] at h
      obtain ⟨h1, h2, h3, -⟩ := h
      subst h1; subst h2; subst h3
      simp [hasTriple]

lemma splitFirst_sep_self (r : List Char) :
    splitFirst tripleHyphen (tripleHyphen ++ r) = some ([], r) := by
  simp [splitFirst, tripleHyphen, List.isPrefixOf]

lemma splitFirst_append_triple {x y : List Char}
    (h : hasTriple (x ++ ['-', '-']) = false) :
    splitFirst tripleHyphen (x ++ tripleHyphen ++ y) = some (x, y) := by
  induction x with
  | nil =>
    simp only [List.nil_append]
    exact splitFirst_sep_self y
  | cons c x' ih =>
    have hx' : hasTriple (x' ++ ['-', '-']) = false := hasTriple_tail (by simpa using h)
    cases hguard : tripleHyphen.isPrefixOf ((c :: x') ++ tripleHyphen ++ y) with
    | true =>
      exfalso
      have := hasTriple_prefix_window hguard
      rw [this] at h
      cases h
    | false =>
      have hrec := ih hx'
      have hshape : (c :: x') ++ tripleHyphen ++ y = c :: (x' ++ tripleHyphen ++ y) := by
        simp
      rw [hshape]
      rw [hshape] at hguard
      simp only [splitFirst, hguard, Bool.false_eq_true, if_false]
      rw [show x' ++ tripleHyphen ++ y = (x' ++ tripleHyphen ++ y) from rfl] at hrec
      rw [hrec]

lemma splitFirst_none_of_no_triple {l : List Char} (h : hasTriple l = false) :
    splitFirst tripleHyphen l = none := by
  induction l with
  | nil => rfl
  | cons c rest ih =>
    cases hguard : tripleHyphen.isPrefixOf (c :: rest) with
    | true =>
      exfalso
      have := triple_prefix_hasTriple hguard
      rw [this] at h
      cases h
    | false =>
      simp only [splitFirst, hguard, Bool.false_eq_true, if_false]
      rw [ih (hasTriple_tail h)]

end SkillPkg

namespace SkillPkg

lemma data_append4 (x y : String) :
    ("---" ++ x ++ "---" ++ y).data =
      tripleHyphen ++ (x.data ++ (tripleHyphen ++ y.data)) := by
  simp only [String.data_append]
  simp [tripleHyphen]

/-- A document of the shape `--- x --- y`, with no delimiter
occurrence inside `x` (nor straddling its right edge), splits into
frontmatter `x` and body `y` — whatever `y` contains. -/
lemma split_frontmatter_ok (x y : String) (h : hasTriple (x.data ++ ['-', '-']) = false) :
    split_frontmatter ("---" ++ x ++ "---" ++ y) =
      .ok (⟨pyStrip x.data⟩, ⟨pyStrip y.data⟩) := by
  rw [split_frontmatter]
  rw [data_append4]
  have hstart : startsWithTriple (tripleHyphen ++ (x.data ++ (tripleHyphen ++ y.data))) = true := by
    simp [startsWithTriple, tripleHyphen, List.isPrefixOf]
  rw [if_neg (by simp [hstart])]
  have h2 : splitFirst tripleHyphen (x.data ++ (tripleHyphen ++ y.data)) =
      some (x.data, y.data) := by
    have := splitFirst_append_triple (x := x.data) (y := y.data) h
    rwa [List.append_assoc] at this
  rw [pySplit2]
  simp only [splitFirst_sep_self, h2]

/-- C10: the frontmatter/body split: a document of the form
`--- <fm> --- <body>` (with no delimiter occurrence inside the
frontmatter block) splits into exactly that frontmatter and that body,
whatever the body contains; a document that does not start with the
delimiter, or has no second delimiter occurrence, is fatally
rejected. -/
theorem c10_split :
    (∀ x y : String, hasTriple (x.data ++ ['-', '-']) = false →
      split_frontmatter ("---" ++ x ++ "---" ++ y) =
        .ok (⟨pyStrip x.data⟩, ⟨pyStrip y.data⟩)) ∧
    (∀ c : String, startsWithTriple c.data = false →
      split_frontmatter c = .error "[ERROR] SKILL.md must start with YAML frontmatter (---)") ∧
    (∀ x : String, hasTriple x.data = false →
      split_frontmatter ("---" ++ x) =
        .error "[ERROR] Invalid frontmatter format. Expected: ---\n<yaml>\n---\n<body>") := by
  refine ⟨split_frontmatter_ok, ?_, ?_⟩
  · intro c h
    rw [split_frontmatter, if_pos (by simp [h])]
  · intro x h
    rw [split_frontmatter]
    have hdata : ("---" ++ x).data = tripleHyphen ++ x.data := by
      simp only [String.data_append]
      rfl
    rw [hdata]
    have hstart : startsWithTriple (tripleHyphen ++ x.data) = true := by
      simp [startsWithTriple, tripleHyphen, List.isPrefixOf]
    rw [if_neg (by simp [hstart])]
    rw [pySplit2]
    simp only [splitFirst_sep_self, splitFirst_none_of_no_triple h]

/-- Witness for C10: a concrete document whose body contains the
delimiter again, split at the first two occurrences only. -/
theorem c10_split_witness :
    split_frontmatter ("---" ++ "\nid: x\n" ++ "---" ++ "\nbody\n---\nmore") =
      .ok (⟨pyStrip "\nid: x\n".data⟩, ⟨pyStrip "\nbody\n---\nmore".data⟩) :=
  c10_split.1 "\nid: x\n" "\nbody\n---\nmore" (by decide)

end SkillPkg

namespace SkillPkg

lemma emap_ok {ε α β : Type} (g : α → β) (a : α) :
    g <$> (Except.ok a : Except ε α) = Except.ok (g a) := rfl

lemma descHasTODO_str (s : String) :
    descHasTODO (.str s) =
      .ok (hasSubstr "TODO".data s.data || hasSubstr "[TODO".data s.data) := by
  cases h : hasSubstr "TODO".data s.data <;>
    simp [descHasTODO, pyInVal, h, ebind_ok, pure, Except.pure]

/-- Full reduction of `validate_parsed` when all required fields are
present, the scalar-checked fields hold strings, and the description
checks return without raising. -/
lemma validate_parsed_full
    {d : String} {fm : List (String × YamlValue)} {body : String}
    {ids vis ca ua : String} {tagsv toolv wfv descv : YamlValue}
    {dTodo : Bool} {dLen : Nat}
    (hall : ∀ f ∈ REQUIRED_FIELDS, fmHasKey fm f = true)
    (hid : fmGet fm "id" = .ok (.str ids))
    (hvis : fmGet fm "visibility" = .ok (.str vis))
    (hca : fmGet fm "created_at" = .ok (.str ca))
    (hua : fmGet fm "updated_at" = .ok (.str ua))
    (htags : fmGet fm "tags" = .ok tagsv)
    (htool : fmGet fm "tool_refs" = .ok toolv)
    (hwf : fmGet fm "workflow_refs" = .ok wfv)
    (hdesc : fmGetD fm "description" (.str "") = descv)
    (hdtodo : descHasTODO descv = .ok dTodo)
    (hdlen : pyLenVal descv = .ok dLen) :
    validate_parsed d fm body =
      .ok (finishReport d (collectAllErrors d ids vis ca ua tagsv toolv wfv body)
        ((if body ≠ "" ∧ body.length < 100 then [shortBodyWarn] else []) ++
         (if 0 < todoCount body.data then [todoBodyWarn (todoCount body.data)] else []) ++
         (if dTodo = true then [descTodoWarn] else []) ++
         (if dLen < 50 then [descShortWarn] else []))) := by
  have hfilnil : REQUIRED_FIELDS.filter (fun f => (¬ fmHasKey fm f : Bool)) = [] := by
    rw [List.filter_eq_nil_iff]
    intro f hf
    simp [hall f hf]
  rw [validate_parsed]
  simp only [hfilnil, List.map_nil, ne_eq, not_true_eq_false, if_neg, if_false]
  simp only [hid, hvis, hca, hua, htags, htool, hwf, hdesc, hdtodo, hdlen, ebind_ok,
    is_valid_skill_id_val, pyVisMember, validate_timestamp_val, emap_ok]
  have he1 : (if yamlEqStr (.str ids) d then ([] : List String)
      else [mismatchMsg (.str ids) d]) =
      (if ids = d then [] else [mismatchMsg (.str ids) d]) := by
    by_cases h : ids = d <;> simp [yamlEqStr, h]
  have he3 : (if (vis = "public" || vis = "private" : Bool) then ([] : List String)
      else [visMsg (.str vis)]) =
      (if vis = "public" ∨ vis = "private" then [] else [visMsg (.str vis)]) := by
    by_cases h : vis = "public" ∨ vis = "private"
    · rcases h with h | h <;> simp [h]
    · push_neg at h
      simp [h.1, h.2]
  rw [he1, he3]
  simp only [pure, Except.pure]
  rfl

end SkillPkg

namespace SkillPkg

lemma finishReport_eq (d : String) (E W : List String) :
    finishReport d E W = ⟨decide (E = []), E, W, if E = [] then [validMsg d] else []⟩ := by
  by_cases h : E = [] <;> simp [finishReport, h]

/-- C2 counterexample: a document whose frontmatter lacks the required
`name` field and carries an invalid `visibility` is reported with the
missing-field error only — the violated visibility constraint is not
in the error list, so a single run does not report all problems at
once. -/
theorem c2_counterexample :
    validate_parsed "demo" c2CexFM sampleBody =
      .ok ⟨false, [missingMsg "name"], [], []⟩ ∧
    pyVisMember (.str "banana") = .ok false ∧
    visMsg (.str "banana") ∉ [missingMsg "name"] :=
  ⟨rfl, rfl, by decide⟩

/-- C2 amended: validation is collect-all in two phases.  All
missing-required-field findings are gathered and reported together,
but they stop the run before the remaining checks; when every required
field is present, all remaining constraint violations (id mismatch, id
grammar, visibility, both timestamps, the three list-typed fields,
empty body) are gathered into one error list and reported together,
and the run passes exactly when that list is empty. -/
theorem c2_collect_all_amended :
    (∀ (d : String) (fm : List (String × YamlValue)) (body : String),
      REQUIRED_FIELDS.filter (fun f => (¬ fmHasKey fm f : Bool)) ≠ [] →
      validate_parsed d fm body =
        .ok ⟨false,
             (REQUIRED_FIELDS.filter (fun f => (¬ fmHasKey fm f : Bool))).map missingMsg,
             [], []⟩) ∧
    (∀ (d : String) (fm : List (String × YamlValue)) (body : String)
       (ids vis ca ua desc : String) (tagsv toolv wfv : YamlValue),
      (∀ f ∈ REQUIRED_FIELDS, fmHasKey fm f = true) →
      fmGet fm "id" = .ok (.str ids) →
      fmGet fm "visibility" = .ok (.str vis) →
      fmGet fm "created_at" = .ok (.str ca) →
      fmGet fm "updated_at" = .ok (.str ua) →
      fmGet fm "tags" = .ok tagsv →
      fmGet fm "tool_refs" = .ok toolv →
      fmGet fm "workflow_refs" = .ok wfv →
      fmGetD fm "description" (.str "") = .str desc →
      ∃ r, validate_parsed d fm body = .ok r ∧
        r.errors = collectAllErrors d ids vis ca ua tagsv toolv wfv body ∧
        (r.passed = true ↔ collectAllErrors d ids vis ca ua tagsv toolv wfv body = [])) := by
  constructor
  · intro d fm body h
    rw [validate_parsed]
    rw [if_pos]
    intro hmap
    rw [List.map_eq_nil_iff] at hmap
    exact h hmap
  · intro d fm body ids vis ca ua desc tagsv toolv wfv hall hid hvis hca hua htags htool hwf hdesc
    refine ⟨_, validate_parsed_full hall hid hvis hca hua htags htool hwf hdesc
      (descHasTODO_str desc) rfl, ?_, ?_⟩
    · rw [finishReport_eq]
    · rw [finishReport_eq]
      simp

/-- Witness for C2: the amended statement applied to a concrete
mapping with every field present and an invalid visibility, and to a
concrete mapping with a missing field. -/
theorem c2_collect_all_amended_witness :
    validate_parsed "demo" c2CexFM sampleBody =
      .ok ⟨false,
           (REQUIRED_FIELDS.filter (fun f => (¬ fmHasKey c2CexFM f : Bool))).map missingMsg,
           [], []⟩ ∧
    ∃ r, validate_parsed "demo" (sampleFM (.str "demo") "banana") sampleBody = .ok r ∧
      r.errors = collectAllErrors "demo" "demo" "banana" goodTs goodTs
        (.list []) (.list []) (.list []) sampleBody ∧
      (r.passed = true ↔ collectAllErrors "demo" "demo" "banana" goodTs goodTs
        (.list []) (.list []) (.list []) sampleBody = []) :=
  ⟨c2_collect_all_amended.1 "demo" c2CexFM sampleBody (by decide),
   c2_collect_all_amended.2 "demo" (sampleFM (.str "demo") "banana") sampleBody
     "demo" "banana" goodTs goodTs goodDesc (.list []) (.list []) (.list [])
     (by decide) rfl rfl rfl rfl rfl rfl rfl rfl⟩

end SkillPkg

namespace SkillPkg

lemma mem_ite_nil_else {c : Prop} [Decidable c] {x m : String} :
    x ∈ (if c then ([] : List String) else [m]) ↔ ¬c ∧ x = m := by
  by_cases h : c <;> simp [h]

lemma mem_ite_nil_then {c : Prop} [Decidable c] {x m : String} :
    x ∈ (if c then [m] else ([] : List String)) ↔ c ∧ x = m := by
  by_cases h : c <;> simp [h]

lemma ne_of_nthChar {s t : String} {i : Nat} {a b : Char}
    (hs : (s.data.drop i).head? = some a) (ht : (t.data.drop i).head? = some b)
    (hab : a ≠ b) : s ≠ t := by
  intro h
  subst h
  rw [hs] at ht
  cases ht
  exact hab rfl

lemma emptyBody_ne_mismatch (v : YamlValue) (d : String) : emptyBodyMsg ≠ mismatchMsg v d :=
  ne_of_nthChar (i := 0) rfl rfl (by decide)

lemma emptyBody_ne_idFmt (v : YamlValue) : emptyBodyMsg ≠ idFmtMsg v :=
  ne_of_nthChar (i := 0) rfl rfl (by decide)

lemma emptyBody_ne_vis (v : YamlValue) : emptyBodyMsg ≠ visMsg v :=
  ne_of_nthChar (i := 0) rfl rfl (by decide)

lemma emptyBody_ne_ts (f : String) (v : YamlValue) : emptyBodyMsg ≠ tsMsg f v := by
  refine ne_of_nthChar (i := 0) rfl ?_ (show 'S' ≠ 'I' by decide)
  rfl

lemma emptyBody_ne_arr_tags : emptyBodyMsg ≠ arrMsg "tags" := by decide

lemma emptyBody_ne_arr_tool : emptyBodyMsg ≠ arrMsg "tool_refs" := by decide

lemma emptyBody_ne_arr_wf : emptyBodyMsg ≠ arrMsg "workflow_refs" := by decide

end SkillPkg

namespace SkillPkg

lemma mem_collectAllErrors_empty {d ids vis ca ua : String} {tagsv toolv wfv : YamlValue}
    {body : String} :
    emptyBodyMsg ∈ collectAllErrors d ids vis ca ua tagsv toolv wfv body ↔ body = "" := by
  simp only [collectAllErrors, List.mem_append, mem_ite_nil_else, mem_ite_nil_then]
  constructor
  · rintro ((((((((⟨_, h⟩ | ⟨_, h⟩) | ⟨_, h⟩) | ⟨_, h⟩) | ⟨_, h⟩) | ⟨_, h⟩) | ⟨_, h⟩) |
      ⟨_, h⟩) | ⟨h, _⟩)
    · exact absurd h (emptyBody_ne_mismatch _ _)
    · exact absurd h (emptyBody_ne_idFmt _)
    · exact absurd h (emptyBody_ne_vis _)
    · exact absurd h (emptyBody_ne_ts _ _)
    · exact absurd h (emptyBody_ne_ts _ _)
    · exact absurd h emptyBody_ne_arr_tags
    · exact absurd h emptyBody_ne_arr_tool
    · exact absurd h emptyBody_ne_arr_wf
    · exact h
  · intro h
    right
    exact ⟨h, trivial⟩

lemma shortWarn_ne_todoBody (n : Nat) : shortBodyWarn ≠ todoBodyWarn n :=
  ne_of_nthChar (i := 0) rfl rfl (by decide)

lemma shortWarn_ne_descTodo : shortBodyWarn ≠ descTodoWarn := by decide

lemma shortWarn_ne_descShort : shortBodyWarn ≠ descShortWarn := by decide

lemma list_isEmpty_eq_decide (E : List String) : E.isEmpty = decide (E = []) := by
  cases E <;> simp

/-- C4 counterexample: a document with a fully valid frontmatter and
an empty body gets a failing result whose error list is exactly the
empty-body finding — the empty body is classified as an error, not a
warning, and by itself produces a failing result. -/
theorem c4_counterexample :
    validate_parsed "demo" (sampleFM (.str "demo") "public") "" =
      .ok ⟨false, [emptyBodyMsg], [], []⟩ := rfl

/-- C4 amended: for every document that reaches the post-parse checks
with all required fields present (and string-valued scalar fields), an
empty body is reported as an error, a non-empty body shorter than 100
characters only as a warning, and the run passes exactly when the
error list is empty — warnings never affect the outcome. -/
theorem c4_body_amended :
    ∀ (d : String) (fm : List (String × YamlValue)) (body : String)
      (ids vis ca ua desc : String) (tagsv toolv wfv : YamlValue),
      (∀ f ∈ REQUIRED_FIELDS, fmHasKey fm f = true) →
      fmGet fm "id" = .ok (.str ids) →
      fmGet fm "visibility" = .ok (.str vis) →
      fmGet fm "created_at" = .ok (.str ca) →
      fmGet fm "updated_at" = .ok (.str ua) →
      fmGet fm "tags" = .ok tagsv →
      fmGet fm "tool_refs" = .ok toolv →
      fmGet fm "workflow_refs" = .ok wfv →
      fmGetD fm "description" (.str "") = .str desc →
      ∃ r, validate_parsed d fm body = .ok r ∧
        (emptyBodyMsg ∈ r.errors ↔ body = "") ∧
        (shortBodyWarn ∈ r.warnings ↔ (body ≠ "" ∧ body.length < 100)) ∧
        r.passed = r.errors.isEmpty := by
  intro d fm body ids vis ca ua desc tagsv toolv wfv hall hid hvis hca hua htags htool hwf hdesc
  refine ⟨_, validate_parsed_full hall hid hvis hca hua htags htool hwf hdesc
    (descHasTODO_str desc) rfl, ?_, ?_, ?_⟩
  · rw [finishReport_eq]
    exact mem_collectAllErrors_empty
  · rw [finishReport_eq]
    simp only [List.mem_append, mem_ite_nil_then]
    constructor
    · rintro (((⟨h, _⟩ | ⟨_, h⟩) | ⟨_, h⟩) | ⟨_, h⟩)
      · exact h
      · exact absurd h (shortWarn_ne_todoBody _)
      · exact absurd h shortWarn_ne_descTodo
      · exact absurd h shortWarn_ne_descShort
    · intro h
      left; left; left
      exact ⟨h, trivial⟩
  · rw [finishReport_eq]
    simp only [list_isEmpty_eq_decide]

/-- Witness for C4 at a concrete mapping, once with a short body and
once with an empty one, through the amended theorem. -/
theorem c4_body_amended_witness :
    ∃ r, validate_parsed "demo" (sampleFM (.str "demo") "public") "Short body." = .ok r ∧
      (emptyBodyMsg ∈ r.errors ↔ ("Short body." : String) = "") ∧
      (shortBodyWarn ∈ r.warnings ↔
        (("Short body." : String) ≠ "" ∧ ("Short body." : String).length < 100)) ∧
      r.passed = r.errors.isEmpty :=
  c4_body_amended "demo" (sampleFM (.str "demo") "public") "Short body."
    "demo" "public" goodTs goodTs goodDesc (.list []) (.list []) (.list [])
    (by decide) rfl rfl rfl rfl rfl rfl rfl rfl

end SkillPkg

namespace SkillPkg

lemma idFmt_ne_mismatch (v w : YamlValue) (d : String) : idFmtMsg v ≠ mismatchMsg w d :=
  ne_of_nthChar (i := 0) rfl rfl (by decide)

lemma idFmt_ne_vis (v w : YamlValue) : idFmtMsg v ≠ visMsg w :=
  ne_of_nthChar (i := 8) rfl rfl (by decide)

lemma idFmt_ne_ts (v : YamlValue) (f : String) (w : YamlValue) : idFmtMsg v ≠ tsMsg f w :=
  ne_of_nthChar (i := 8) rfl rfl (by decide)

lemma idFmt_ne_arr_tags (v : YamlValue) : idFmtMsg v ≠ arrMsg "tags" :=
  ne_of_nthChar (i := 0) rfl rfl (by decide)

lemma idFmt_ne_arr_tool (v : YamlValue) : idFmtMsg v ≠ arrMsg "tool_refs" :=
  ne_of_nthChar (i := 0) rfl rfl (by decide)

lemma idFmt_ne_arr_wf (v : YamlValue) : idFmtMsg v ≠ arrMsg "workflow_refs" :=
  ne_of_nthChar (i := 0) rfl rfl (by decide)

lemma idFmt_ne_emptyBody (v : YamlValue) : idFmtMsg v ≠ emptyBodyMsg :=
  ne_of_nthChar (i := 0) rfl rfl (by decide)

lemma mem_collectAllErrors_idFmt {d ids vis ca ua : String} {tagsv toolv wfv : YamlValue}
    {body : String} :
    idFmtMsg (.str ids) ∈ collectAllErrors d ids vis ca ua tagsv toolv wfv body ↔
      is_valid_skill_id ids = false := by
  simp only [collectAllErrors, List.mem_append, mem_ite_nil_else, mem_ite_nil_then]
  constructor
  · rintro ((((((((⟨_, h⟩ | ⟨hc, _⟩) | ⟨_, h⟩) | ⟨_, h⟩) | ⟨_, h⟩) | ⟨_, h⟩) | ⟨_, h⟩) |
      ⟨_, h⟩) | ⟨_, h⟩)
    · exact absurd h (idFmt_ne_mismatch _ _ _)
    · simpa using hc
    · exact absurd h (idFmt_ne_vis _ _)
    · exact absurd h (idFmt_ne_ts _ _ _)
    · exact absurd h (idFmt_ne_ts _ _ _)
    · exact absurd h (idFmt_ne_arr_tags _)
    · exact absurd h (idFmt_ne_arr_tool _)
    · exact absurd h (idFmt_ne_arr_wf _)
    · exact absurd h (idFmt_ne_emptyBody _)
  · intro h
    left; left; left; left; left; left; left; right
    exact ⟨by simp [h], trivial⟩

set_option maxRecDepth 40000 in
/-- C5 counterexample: the id value `a-` fails the Skill Identifier
grammar (trailing hyphen), yet the validator reports no error at all
for a document carrying it — the whole run passes. -/
theorem c5_counterexample :
    skillIdGrammar "a-" = false ∧
    validate_parsed "a-" (sampleFM (.str "a-") "public") sampleBody =
      .ok ⟨true, [], [], [validMsg "a-"]⟩ :=
  ⟨by decide, rfl⟩

/-- C5 amended: for every frontmatter with all required fields present
(string-valued scalars), the id-format error is reported exactly when
`is_valid_skill_id` rejects the id — that is, when the id is empty,
its first character is not a lowercase letter, or some character is
outside lowercase letters, digits and hyphens.  (Unlike the spec's
grammar, this accepts trailing or consecutive hyphens and any length,
and rejects ids beginning with a digit.) -/
theorem c5_id_grammar_amended :
    ∀ (d : String) (fm : List (String × YamlValue)) (body : String)
      (ids vis ca ua desc : String) (tagsv toolv wfv : YamlValue),
      (∀ f ∈ REQUIRED_FIELDS, fmHasKey fm f = true) →
      fmGet fm "id" = .ok (.str ids) →
      fmGet fm "visibility" = .ok (.str vis) →
      fmGet fm "created_at" = .ok (.str ca) →
      fmGet fm "updated_at" = .ok (.str ua) →
      fmGet fm "tags" = .ok tagsv →
      fmGet fm "tool_refs" = .ok toolv →
      fmGet fm "workflow_refs" = .ok wfv →
      fmGetD fm "description" (.str "") = .str desc →
      ∃ r, validate_parsed d fm body = .ok r ∧
        (idFmtMsg (.str ids) ∈ r.errors ↔ is_valid_skill_id ids = false) := by
  intro d fm body ids vis ca ua desc tagsv toolv wfv hall hid hvis hca hua htags htool hwf hdesc
  refine ⟨_, validate_parsed_full hall hid hvis hca hua htags htool hwf hdesc
    (descHasTODO_str desc) rfl, ?_⟩
  rw [finishReport_eq]
  exact mem_collectAllErrors_idFmt

/-- Witness for C5: the amended theorem at a digit-initial id, which
the implementation rejects. -/
theorem c5_id_grammar_amended_witness :
    ∃ r, validate_parsed "9a" (sampleFM (.str "9a") "public") sampleBody = .ok r ∧
      (idFmtMsg (.str "9a") ∈ r.errors ↔ is_valid_skill_id "9a" = false) :=
  c5_id_grammar_amended "9a" (sampleFM (.str "9a") "public") sampleBody
    "9a" "public" goodTs goodTs goodDesc (.list []) (.list []) (.list [])
    (by decide) rfl rfl rfl rfl rfl rfl rfl rfl

end SkillPkg

namespace SkillPkg

/-- C3 counterexample: in degraded mode (no PyYAML) the validator
returns a passing result for a document missing every required
frontmatter field — the same document that full validation fails with
eleven missing-field errors. -/
theorem c3_counterexample :
    validate_skill false c3Parser "s" c3Doc =
      .ok ⟨true, [],
        ["[WARN] SKILL.md body is very short (< 100 characters)"],
        ["[OK] Basic validation passed for: s",
         "[INFO] Install PyYAML for full validation: python3 -m pip install pyyaml"]⟩ ∧
    validate_skill true c3Parser "s" c3Doc =
      .ok ⟨false, REQUIRED_FIELDS.map missingMsg, [], []⟩ :=
  ⟨rfl, rfl⟩

/-- C3 amended: degraded mode ignores the frontmatter entirely (its
outcome does not depend on the parser), returns a passing result based
only on stages 1–4 and the body heuristics, and its output carries the
distinct basic-validation notice while never carrying the full-schema
success message. -/
theorem c3_degraded_amended :
    (∀ (p₁ p₂ : String → Except String YamlValue) (d c : String),
      validate_skill false p₁ d c = validate_skill false p₂ d c) ∧
    (∀ (p : String → Except String YamlValue) (d c fmStr body : String),
      split_frontmatter c = .ok (fmStr, body) →
      validate_skill false p d c = .ok (basicValidation d body) ∧
      ("[OK] Basic validation passed for: " ++ d) ∈ (basicValidation d body).notices ∧
      validMsg d ∉ (basicValidation d body).notices ∧
      (basicValidation d body).passed = true) := by
  constructor
  · intro p₁ p₂ d c
    cases h : split_frontmatter c with
    | error m => simp [validate_skill, h]
    | ok fmb => simp [validate_skill, h]
  · intro p d c fmStr body hsplit
    refine ⟨by simp [validate_skill, hsplit], ?_, ?_, rfl⟩
    · simp [basicValidation]
    · have h1 : validMsg d ≠ "[OK] Basic validation passed for: " ++ d :=
        ne_of_nthChar (i := 5) rfl rfl (by decide)
      have h2 : validMsg d ≠
          "[INFO] Install PyYAML for full validation: python3 -m pip install pyyaml" :=
        ne_of_nthChar (i := 1) rfl rfl (by decide)
      simp [basicValidation, h1, h2]

/-- Witness for C3: the amended statement at the concrete degraded
run. -/
theorem c3_degraded_amended_witness :
    validate_skill false c3Parser "s" c3Doc =
      .ok (basicValidation "s" "some body") ∧
    ("[OK] Basic validation passed for: " ++ "s") ∈ (basicValidation "s" "some body").notices ∧
    validMsg "s" ∉ (basicValidation "s" "some body").notices ∧
    (basicValidation "s" "some body").passed = true :=
  c3_degraded_amended.2 c3Parser "s" c3Doc "foo: 1" "some body" (by rfl)

end SkillPkg

namespace SkillPkg

lemma uint32_le_iff_toNat_le (a b : UInt32) : a ≤ b ↔ a.toNat ≤ b.toNat := by
  rw [UInt32.le_def, BitVec.le_def]
  exact Iff.rfl

lemma char_toNat_ofNat {n : Nat} (h : n.isValidChar) : (Char.ofNat n).toNat = n := by
  rw [Char.ofNat, dif_pos h]
  rfl

lemma digitChar_toNat (n : Nat) : (digitChar n).toNat = 48 + n % 10 := by
  have hlt : n % 10 < 10 := Nat.mod_lt n (by norm_num)
  exact char_toNat_ofNat (Or.inl (by omega))

lemma digitChar_ne_hyphen (n : Nat) : digitChar n ≠ '-' := by
  intro h
  have h2 := congrArg Char.toNat h
  rw [digitChar_toNat] at h2
  have h45 : ('-').toNat = 45 := rfl
  rw [h45] at h2
  have hlt : n % 10 < 10 := Nat.mod_lt n (by norm_num)
  omega

lemma digitChar_ne_Z (n : Nat) : digitChar n ≠ 'Z' := by
  intro h
  have h2 := congrArg Char.toNat h
  rw [digitChar_toNat] at h2
  have h90 : ('Z').toNat = 90 := rfl
  rw [h90] at h2
  have hlt : n % 10 < 10 := Nat.mod_lt n (by norm_num)
  omega

lemma digitChar_isDigit (n : Nat) : (digitChar n).isDigit = true := by
  have h1 := digitChar_toNat n
  have hlt : n % 10 < 10 := Nat.mod_lt n (by norm_num)
  simp only [Char.isDigit, Bool.and_eq_true, decide_eq_true_eq, ge_iff_le]
  constructor
  · rw [show (48 : UInt32) = Char.val '0' from rfl]
    rw [uint32_le_iff_toNat_le]
    show (48 : Nat) ≤ (digitChar n).toNat
    omega
  · rw [show (57 : UInt32) = Char.val '9' from rfl]
    rw [uint32_le_iff_toNat_le]
    show (digitChar n).toNat ≤ (57 : Nat)
    omega

lemma digitVal_digitChar (n : Nat) : digitVal (digitChar n) = n % 10 := by
  rw [digitVal, digitChar_toNat]
  omega

lemma toUpper_eq_hyphen {c : Char} (h : c.toUpper = '-') : c = '-' := by
  rw [Char.toUpper] at h
  split at h
  · exfalso
    rename_i hc
    have h2 := congrArg Char.toNat h
    rw [char_toNat_ofNat (Or.inl (by omega))] at h2
    have h45 : ('-').toNat = 45 := rfl
    rw [h45] at h2
    omega
  · exact h

lemma toLower_eq_hyphen {c : Char} (h : c.toLower = '-') : c = '-' := by
  rw [Char.toLower] at h
  split at h
  · exfalso
    rename_i hc
    have h2 := congrArg Char.toNat h
    rw [char_toNat_ofNat (Or.inl (by omega))] at h2
    have h45 : ('-').toNat = 45 := rfl
    rw [h45] at h2
    omega
  · exact h

end SkillPkg

namespace SkillPkg

lemma pySplitChar_ne_nil (sep : Char) (l : List Char) : pySplitChar sep l ≠ [] := by
  cases l with
  | nil => simp [pySplitChar]
  | cons c rest =>
    simp only [pySplitChar]
    by_cases h : c = sep
    · simp [h]
    · rw [if_neg h]
      cases hr : pySplitChar sep rest with
      | nil => simp
      | cons p ps => simp

lemma mem_piece_pySplitChar {sep : Char} {l : List Char} {p : List Char} {c : Char}
    (hp : p ∈ pySplitChar sep l) (hc : c ∈ p) : c ≠ sep := by
  induction l generalizing p with
  | nil =>
    simp only [pySplitChar, List.mem_singleton] at hp
    subst hp
    cases hc
  | cons a rest ih =>
    simp only [pySplitChar] at hp
    by_cases h : a = sep
    · rw [if_pos h] at hp
      rcases List.mem_cons.mp hp with rfl | hp2
      · cases hc
      · exact ih hp2 hc
    · rw [if_neg h] at hp
      cases hr : pySplitChar sep rest with
      | nil => exact absurd hr (pySplitChar_ne_nil sep rest)
      | cons q qs =>
        rw [hr] at hp
        rcases List.mem_cons.mp hp with rfl | hp2
        · rcases List.mem_cons.mp hc with rfl | hc2
          · exact h
          · exact ih (hr ▸ List.mem_cons_self q qs) hc2
        · exact ih (hr ▸ List.mem_cons_of_mem q hp2) hc

lemma mem_pyCapitalize {p : List Char} {c : Char} (h : c ∈ pyCapitalize p) :
    ∃ d ∈ p, c = d.toUpper ∨ c = d.toLower := by
  cases p with
  | nil => cases h
  | cons d rest =>
    simp only [pyCapitalize, List.mem_cons] at h
    rcases h with rfl | h2
    · exact ⟨d, List.mem_cons_self d rest, Or.inl rfl⟩
    · obtain ⟨e, he, hce⟩ := List.mem_map.mp h2
      exact ⟨e, List.mem_cons_of_mem d he, Or.inr hce.symm⟩

lemma mem_joinWith_space {ps : List (List Char)} {c : Char}
    (h : c ∈ joinWith [' '] ps) : c = ' ' ∨ ∃ p ∈ ps, c ∈ p := by
  induction ps with
  | nil => cases h
  | cons p ps ih =>
    cases ps with
    | nil =>
      right
      exact ⟨p, List.mem_singleton_self p, h⟩
    | cons q qs =>
      simp only [joinWith, List.append_assoc, List.mem_append] at h
      rcases h with h1 | h1
      · right; exact ⟨p, List.mem_cons_self _ _, h1⟩
      · rcases h1 with h2 | h2
        · left; simpa using h2
        · rcases ih h2 with h3 | ⟨r, hr, hcr⟩
          · left; exact h3
          · right; exact ⟨r, List.mem_cons_of_mem p hr, hcr⟩

lemma title_no_hyphen (s : String) : '-' ∉ (title_case_skill_name s).data := by
  intro h
  have h2 : '-' ∈ joinWith [' '] ((pySplitChar '-' s.data).map pyCapitalize) := h
  rcases mem_joinWith_space h2 with h3 | ⟨q, hq, hcq⟩
  · cases h3
  · obtain ⟨p, hp, rfl⟩ := List.mem_map.mp hq
    obtain ⟨d, hd, hcd⟩ := mem_pyCapitalize hcq
    have hdne : d ≠ '-' := mem_piece_pySplitChar hp hd
    rcases hcd with h4 | h4
    · exact hdne (toUpper_eq_hyphen h4.symm)
    · exact hdne (toLower_eq_hyphen h4.symm)

lemma noDD_of_no_hyphen {l : List Char} (h : '-' ∉ l) : noDoubleHyphen l = true := by
  induction l with
  | nil => rfl
  | cons a rest ih =>
    have ha : a ≠ '-' := fun hc => h (hc ▸ List.mem_cons_self a rest)
    refine noDoubleHyphen_cons (ih (fun hc => h (List.mem_cons_of_mem a hc))) ?_
    intro _
    exact ha

lemma noDD_append {x y : List Char} (hx : noDoubleHyphen x = true)
    (hy : noDoubleHyphen y = true)
    (hb : ¬(x.getLast? = some '-' ∧ y.head? = some '-')) :
    noDoubleHyphen (x ++ y) = true := by
  induction x with
  | nil => simpa using hy
  | cons a x' ih =>
    cases x' with
    | nil =>
      simp only [List.cons_append, List.nil_append]
      refine noDoubleHyphen_cons hy ?_
      intro hh ha
      exact hb ⟨by simp [ha], hh⟩
    | cons b x'' =>
      simp only [List.cons_append]
      have hx' : noDoubleHyphen (b :: x'') = true := noDoubleHyphen_tail hx
      have hb' : ¬((b :: x'').getLast? = some '-' ∧ y.head? = some '-') := by
        rwa [show (a :: b :: x'').getLast? = (b :: x'').getLast? from
          List.getLast?_cons_cons] at hb
      refine noDoubleHyphen_cons (ih hx' hb') ?_
      intro hh ha
      subst ha
      have hbne : b ≠ '-' := noDoubleHyphen_cons_head hx rfl
      simp only [List.cons_append, List.head?_cons, Option.some_inj] at hh
      exact hbne hh

lemma hasTriple_cons_false {a b : Char} {l : List Char}
    (hab : ¬(a = '-' ∧ b = '-')) (hl : hasTriple (b :: l) = false) :
    hasTriple (a :: b :: l) = false := by
  cases l with
  | nil => rfl
  | cons c r =>
    simp only [hasTriple, Bool.or_eq_false_iff]
    refine ⟨?_, hl⟩
    · by_cases ha : a = '-'
      · have hb : b ≠ '-' := fun hb => hab ⟨ha, hb⟩
        simp [hb]
      · simp [ha]
  
lemma hasTriple_append_two {l : List Char} (hdd : noDoubleHyphen l = true)
    (hlast : l.getLast? ≠ some '-') : hasTriple (l ++ ['-', '-']) = false := by
  induction l with
  | nil => rfl
  | cons a rest ih =>
    cases rest with
    | nil =>
      simp only [List.cons_append, List.nil_append, hasTriple]
      have ha : a ≠ '-' := by simpa using hlast
      simp [ha]
    | cons b rest' =>
      have h1 : hasTriple ((b :: rest') ++ ['-', '-']) = false :=
        ih (noDoubleHyphen_tail hdd) (by rwa [List.getLast?_cons_cons] at hlast)
      have hab : ¬(a = '-' ∧ b = '-') := by
        intro ⟨ha, hb⟩
        exact noDoubleHyphen_cons_head hdd ha hb
      exact hasTriple_cons_false hab h1

end SkillPkg

namespace SkillPkg

lemma head_ne_of_not_mem {c : Char} {l : List Char} (h : c ∉ l) : l.head? ≠ some c := by
  cases l with
  | nil => simp
  | cons a rest =>
    simp only [List.head?_cons, ne_eq, Option.some_inj]
    intro hac
    exact h (hac ▸ List.mem_cons_self a rest)

lemma strftime_data (y mo d h mi s : Nat) :
    (strftimeTs y mo d h mi s).data =
      [digitChar (y / 1000 % 10), digitChar (y / 100 % 10), digitChar (y / 10 % 10),
       digitChar (y % 10), '-', digitChar (mo / 10 % 10), digitChar (mo % 10), '-',
       digitChar (d / 10 % 10), digitChar (d % 10), 'T', digitChar (h / 10 % 10),
       digitChar (h % 10), ':', digitChar (mi / 10 % 10), digitChar (mi % 10), ':',
       digitChar (s / 10 % 10), digitChar (s % 10), 'Z'] := rfl

lemma strftime_facts (y mo d h mi s : Nat) :
    noDoubleHyphen (strftimeTs y mo d h mi s).data = true ∧
    (strftimeTs y mo d h mi s).data.head? ≠ some '-' ∧
    (strftimeTs y mo d h mi s).data.getLast? ≠ some '-' := by
  have hZ : ∀ n, (digitChar n = '-') = False := fun n => eq_false (digitChar_ne_hyphen n)
  rw [strftime_data]
  refine ⟨?_, ?_, ?_⟩
  · simp [noDoubleHyphen, hZ]
  · simp [hZ]
  · simp

end SkillPkg

namespace SkillPkg

lemma fmBlock_noDD_last (n t ts : String)
    (hn : noDoubleHyphen n.data = true)
    (hnh : n.data.head? ≠ some '-')
    (ht : '-' ∉ t.data)
    (hts : noDoubleHyphen ts.data = true) (htsh : ts.data.head? ≠ some '-') :
    noDoubleHyphen (skillFmBlock n t ts).data = true ∧
    (skillFmBlock n t ts).data.getLast? ≠ some '-' := by
  constructor
  · simp only [skillFmBlock, String.data_append]
    refine noDD_append ?_ (by decide) (by rintro ⟨-, h2⟩; exact absurd h2 (by decide))
    refine noDD_append ?_ hts (by rintro ⟨-, h2⟩; exact htsh h2)
    refine noDD_append ?_ (by decide) (by rintro ⟨-, h2⟩; exact absurd h2 (by decide))
    refine noDD_append ?_ (by decide) (by rintro ⟨-, h2⟩; exact absurd h2 (by decide))
    refine noDD_append ?_ hts (by rintro ⟨-, h2⟩; exact htsh h2)
    refine noDD_append ?_ (by decide) (by rintro ⟨-, h2⟩; exact absurd h2 (by decide))
    refine noDD_append ?_ (by decide) (by rintro ⟨-, h2⟩; exact absurd h2 (by decide))
    refine noDD_append ?_ (by decide) (by rintro ⟨-, h2⟩; exact absurd h2 (by decide))
    refine noDD_append ?_ (by decide) (by rintro ⟨-, h2⟩; exact absurd h2 (by decide))
    refine noDD_append ?_ (by decide) (by rintro ⟨-, h2⟩; exact absurd h2 (by decide))
    refine noDD_append ?_ (by decide) (by rintro ⟨-, h2⟩; exact absurd h2 (by decide))
    refine noDD_append ?_ (by decide) (by rintro ⟨-, h2⟩; exact absurd h2 (by decide))
    refine noDD_append ?_ (by decide) (by rintro ⟨-, h2⟩; exact absurd h2 (by decide))
    refine noDD_append ?_ (noDD_of_no_hyphen ht)
      (by rintro ⟨-, h2⟩; exact head_ne_of_not_mem ht h2)
    refine noDD_append ?_ (by decide) (by rintro ⟨-, h2⟩; exact absurd h2 (by decide))
    refine noDD_append ?_ hn (by rintro ⟨-, h2⟩; exact hnh h2)
    decide
  · simp only [skillFmBlock, String.data_append, List.getLast?_append]
    have h1 : (("\"\n" : String).data).getLast? = some '\n' := rfl
    rw [h1]
    simp

end SkillPkg

namespace SkillPkg

lemma pyReplaceZ_cons_ne {c : Char} {l : List Char} (h : c ≠ 'Z') :
    pyReplaceZ (c :: l) = c :: pyReplaceZ l := by
  rw [pyReplaceZ, if_neg h]

lemma pyReplaceZ_strftime (y mo d h mi s : Nat) :
    pyReplaceZ (strftimeTs y mo d h mi s).data =
      [digitChar (y / 1000 % 10), digitChar (y / 100 % 10), digitChar (y / 10 % 10),
       digitChar (y % 10), '-', digitChar (mo / 10 % 10), digitChar (mo % 10), '-',
       digitChar (d / 10 % 10), digitChar (d % 10), 'T', digitChar (h / 10 % 10),
       digitChar (h % 10), ':', digitChar (mi / 10 % 10), digitChar (mi % 10), ':',
       digitChar (s / 10 % 10), digitChar (s % 10),
       '+', '0', '0', ':', '0', '0'] := by
  rw [strftime_data]
  rw [pyReplaceZ_cons_ne (digitChar_ne_Z _), pyReplaceZ_cons_ne (digitChar_ne_Z _),
    pyReplaceZ_cons_ne (digitChar_ne_Z _), pyReplaceZ_cons_ne (digitChar_ne_Z _),
    pyReplaceZ_cons_ne (by decide : ('-' : Char) ≠ 'Z'),
    pyReplaceZ_cons_ne (digitChar_ne_Z _), pyReplaceZ_cons_ne (digitChar_ne_Z _),
    pyReplaceZ_cons_ne (by decide : ('-' : Char) ≠ 'Z'),
    pyReplaceZ_cons_ne (digitChar_ne_Z _), pyReplaceZ_cons_ne (digitChar_ne_Z _),
    pyReplaceZ_cons_ne (by decide : ('T' : Char) ≠ 'Z'),
    pyReplaceZ_cons_ne (digitChar_ne_Z _), pyReplaceZ_cons_ne (digitChar_ne_Z _),
    pyReplaceZ_cons_ne (by decide : (':' : Char) ≠ 'Z'),
    pyReplaceZ_cons_ne (digitChar_ne_Z _), pyReplaceZ_cons_ne (digitChar_ne_Z _),
    pyReplaceZ_cons_ne (by decide : (':' : Char) ≠ 'Z'),
    pyReplaceZ_cons_ne (digitChar_ne_Z _), pyReplaceZ_cons_ne (digitChar_ne_Z _)]
  rfl

lemma validate_timestamp_strftime {y mo d h mi s : Nat}
    (hy1 : 1 ≤ y) (hy2 : y ≤ 9999) (hmo1 : 1 ≤ mo) (hmo2 : mo ≤ 12)
    (hd1 : 1 ≤ d) (hd2 : d ≤ daysInMonth y mo) (hh : h ≤ 23) (hmi : mi ≤ 59) (hs : s ≤ 59) :
    validate_timestamp (strftimeTs y mo d h mi s) = true := by
  have hd31 : d ≤ 31 := by
    refine le_trans hd2 ?_
    rw [daysInMonth]
    split
    · split <;> omega
    · split <;> omega
  rw [validate_timestamp, pyReplaceZ_strftime]
  rw [parseISOOk]
  have hmov : twoDigits (digitChar (mo / 10 % 10)) (digitChar (mo % 10)) = mo := by
    rw [twoDigits, digitVal_digitChar, digitVal_digitChar]
    omega
  have hdv : twoDigits (digitChar (d / 10 % 10)) (digitChar (d % 10)) = d := by
    rw [twoDigits, digitVal_digitChar, digitVal_digitChar]
    omega
  have hhv : twoDigits (digitChar (h / 10 % 10)) (digitChar (h % 10)) = h := by
    rw [twoDigits, digitVal_digitChar, digitVal_digitChar]
    omega
  have hmiv : twoDigits (digitChar (mi / 10 % 10)) (digitChar (mi % 10)) = mi := by
    rw [twoDigits, digitVal_digitChar, digitVal_digitChar]
    omega
  have hsv : twoDigits (digitChar (s / 10 % 10)) (digitChar (s % 10)) = s := by
    rw [twoDigits, digitVal_digitChar, digitVal_digitChar]
    omega
  simp only [digitChar_isDigit, digitVal_digitChar, hmov, hdv, hhv, hmiv, hsv,
    Bool.true_and, Bool.and_eq_true, decide_eq_true_eq]
  have hyvd : 1000 * (y / 1000 % 10 % 10) + 100 * (y / 100 % 10 % 10) +
      10 * (y / 10 % 10 % 10) + y % 10 % 10 = y := by
    omega
  rw [hyvd]
  refine ⟨⟨⟨⟨⟨⟨⟨⟨?_, ?_⟩, ?_⟩, ?_⟩, ?_⟩, ?_⟩, ?_⟩, ?_⟩, ?_⟩
  all_goals first
    | exact hd2
    | omega
    | decide

end SkillPkg

namespace SkillPkg

lemma create_resource_dirs_mem (rs : List String) (fs : FS) (sd sn st : String) (b : Bool) :
    (∀ x ∈ fs.dirs, x ∈ (create_resource_dirs fs sd sn st rs b).dirs) ∧
    (∀ f ∈ fs.files, f ∈ (create_resource_dirs fs sd sn st rs b).files) := by
  induction rs generalizing fs with
  | nil => exact ⟨fun x hx => hx, fun f hf => hf⟩
  | cons r rest ih =>
    constructor
    · intro x hx
      simp only [create_resource_dirs, List.foldl_cons]
      refine (ih _).1 x ?_
      split
      · split <;> simp [fsAddDir, fsWrite, hx]
      · split
        · split <;> simp [fsAddDir, fsWrite, hx]
        · split
          · split <;> simp [fsAddDir, fsWrite, hx]
          · simp [fsAddDir, hx]
    · intro f hf
      simp only [create_resource_dirs, List.foldl_cons]
      refine (ih _).2 f ?_
      split
      · split <;> simp [fsAddDir, fsWrite, hf]
      · split
        · split <;> simp [fsAddDir, fsWrite, hf]
        · split
          · split <;> simp [fsAddDir, fsWrite, hf]
          · simp [fsAddDir, hf]

end SkillPkg

namespace SkillPkg

lemma init_skill_success (fs : FS) (name path ts : String) (rs : List String) (b : Bool)
    (hnew : fsExists fs (path ++ "/" ++ name) = false) :
    init_skill fs name path ts rs b =
      (some (path ++ "/" ++ name),
        if rs ≠ [] then
          create_resource_dirs
            (fsWrite (fsAddDir fs (path ++ "/" ++ name)) (path ++ "/" ++ name ++ "/SKILL.md")
              (renderSkillMd name (title_case_skill_name name) ts))
            (path ++ "/" ++ name) name (title_case_skill_name name) rs b
        else
          fsWrite (fsAddDir fs (path ++ "/" ++ name)) (path ++ "/" ++ name ++ "/SKILL.md")
            (renderSkillMd name (title_case_skill_name name) ts)) := by
  simp [init_skill, hnew]

lemma fsExists_after_success (fs : FS) (name path ts : String) (rs : List String) (b : Bool)
    (hnew : fsExists fs (path ++ "/" ++ name) = false) :
    fsExists (init_skill fs name path ts rs b).2 (path ++ "/" ++ name) = true := by
  rw [init_skill_success fs name path ts rs b hnew]
  have hdir : ∀ fs' : FS, (path ++ "/" ++ name) ∈ fs'.dirs →
      fsExists fs' (path ++ "/" ++ name) = true := by
    intro fs' hmem
    simp only [fsExists, Bool.or_eq_true, List.any_eq_true]
    exact Or.inl ⟨_, hmem, by simp⟩
  split
  · refine hdir _ ((create_resource_dirs_mem _ _ _ _ _ _).1 _ ?_)
    simp [fsWrite, fsAddDir]
  · refine hdir _ ?_
    simp [fsWrite, fsAddDir]

lemma skillmd_after_success (fs : FS) (name path ts : String) (rs : List String) (b : Bool)
    (hnew : fsExists fs (path ++ "/" ++ name) = false) :
    (path ++ "/" ++ name ++ "/SKILL.md",
      renderSkillMd name (title_case_skill_name name) ts) ∈
      (init_skill fs name path ts rs b).2.files := by
  rw [init_skill_success fs name path ts rs b hnew]
  split
  · refine (create_resource_dirs_mem _ _ _ _ _ _).2 _ ?_
    simp [fsWrite, fsAddDir]
  · simp [fsWrite, fsAddDir]

/-- C6: when the resolved target path already exists the generator
returns `None` and leaves the filesystem unchanged (no writes); and
creating the same identifier twice in the same parent yields success
then failure, whatever the timestamps, resource selections and
example flags of the two runs. -/
theorem c6_generator_exists :
    (∀ (fs : FS) (name path ts : String) (rs : List String) (b : Bool),
      fsExists fs (path ++ "/" ++ name) = true →
      init_skill fs name path ts rs b = (none, fs)) ∧
    (∀ (fs : FS) (name path ts ts2 : String) (rs rs2 : List String) (b b2 : Bool),
      fsExists fs (path ++ "/" ++ name) = false →
      (init_skill fs name path ts rs b).1 = some (path ++ "/" ++ name) ∧
      init_skill (init_skill fs name path ts rs b).2 name path ts2 rs2 b2 =
        (none, (init_skill fs name path ts rs b).2)) := by
  constructor
  · intro fs name path ts rs b h
    simp [init_skill, h]
  · intro fs name path ts ts2 rs rs2 b b2 h
    refine ⟨by rw [init_skill_success fs name path ts rs b h], ?_⟩
    have h2 := fsExists_after_success fs name path ts rs b h
    revert h2
    generalize (init_skill fs name path ts rs b).2 = fs2
    intro h2
    simp [init_skill, h2]

/-- Witness for C6: a concrete double run — the first creation of
`demo` under `/s` succeeds, the immediate re-run fails and writes
nothing. -/
theorem c6_generator_exists_witness :
    (init_skill ⟨[], []⟩ "demo" "/s" goodTs ["scripts"] true).1 = some ("/s" ++ "/" ++ "demo") ∧
    init_skill (init_skill ⟨[], []⟩ "demo" "/s" goodTs ["scripts"] true).2 "demo" "/s" goodTs
        [] false =
      (none, (init_skill ⟨[], []⟩ "demo" "/s" goodTs ["scripts"] true).2) :=
  c6_generator_exists.2 ⟨[], []⟩ "demo" "/s" goodTs goodTs ["scripts"] [] true false (by decide)

end SkillPkg

namespace SkillPkg

lemma isLower_not_isDigit {c : Char} (h : c.isLower = true) : c.isDigit = false := by
  simp only [Char.isLower, Bool.and_eq_true, decide_eq_true_eq, ge_iff_le] at h
  have h97 : (97 : Nat) ≤ c.val.toNat := by
    have h2 := (uint32_le_iff_toNat_le 97 c.val).mp h.1
    have h3 : (97 : UInt32).toNat = 97 := rfl
    rwa [h3] at h2
  have h57 : decide (c.val ≤ (57 : UInt32)) = false := by
    rw [decide_eq_false_iff_not]
    intro hle
    have h2 := (uint32_le_iff_toNat_le c.val 57).mp hle
    have h3 : (57 : UInt32).toNat = 57 := rfl
    rw [h3] at h2
    omega
  simp [Char.isDigit, h57]

lemma resolveScalar_eq_str {s : String} (hfirst : firstIsLower s = true)
    (hkw : notYamlKeyword s = true) : resolveScalar s = .str s := by
  have hkw2 : s ∉ yamlTrueWords ∧ s ∉ yamlFalseWords ∧ s ∉ yamlNullWords := by
    simpa [notYamlKeyword, not_or, and_assoc] using hkw
  rw [resolveScalar, if_neg hkw2.2.2, if_neg hkw2.1, if_neg hkw2.2.1, if_neg ?_]
  rintro ⟨-, hall⟩
  rw [firstIsLower] at hfirst
  cases hd : s.data with
  | nil => rw [hd] at hfirst; exact absurd hfirst (by simp)
  | cons c rest =>
    rw [hd] at hfirst hall
    have hdig : c.isDigit = true := by
      have := (List.all_eq_true.mp hall) c (List.mem_cons_self c rest)
      simpa using this
    rw [isLower_not_isDigit hfirst] at hdig
    cases hdig

lemma isCanonicalIdent_parts {s : String} (h : isCanonicalIdent s = true) :
    s ≠ "" ∧ s.data.all isIdChar = true ∧ s.data.head? ≠ some '-' ∧
    s.data.getLast? ≠ some '-' ∧ noDoubleHyphen s.data = true := by
  simp only [isCanonicalIdent, Bool.and_eq_true, decide_eq_true_eq, ne_eq] at h
  exact ⟨h.1.1.1.1, h.1.1.1.2, h.1.1.2, h.1.2, h.2⟩

lemma is_valid_of_canonical {s : String} (hc : isCanonicalIdent s = true)
    (hf : firstIsLower s = true) : is_valid_skill_id s = true := by
  rw [is_valid_skill_id]
  rw [firstIsLower] at hf
  have hall := (isCanonicalIdent_parts hc).2.1
  cases hd : s.data with
  | nil => rw [hd] at hf; exact absurd hf (by simp)
  | cons c rest =>
    rw [hd] at hf hall
    have hf2 : c.isLower = true := hf
    simp [hf2, hall]

lemma mem_dropWhile_of_not {p : Char → Bool} {l : List Char} {c : Char}
    (hc : c ∈ l) (hp : p c = false) : c ∈ l.dropWhile p := by
  induction l with
  | nil => cases hc
  | cons a rest ih =>
    rw [List.dropWhile_cons]
    by_cases ha : p a = true
    · rw [if_pos (by simp [ha])]
      rcases List.mem_cons.mp hc with rfl | h2
      · rw [ha] at hp; cases hp
      · exact ih h2
    · rw [if_neg (by simp [Bool.not_eq_true] at ha; simp [ha])]
      exact hc

lemma pyStrip_ne_nil {l : List Char} {c : Char} (hc : c ∈ l) (hp : isPyWs c = false) :
    pyStrip l ≠ [] := by
  rw [pyStrip, dropEndWhile]
  simp only [ne_eq, List.reverse_eq_nil_iff, List.dropWhile_eq_nil_iff, not_forall]
  refine ⟨c, ?_, by simp [hp]⟩
  rw [List.mem_reverse]
  exact mem_dropWhile_of_not hc hp

set_option maxRecDepth 10000 in
lemma bodyBlock_stripped_ne_nil (t : String) : pyStrip (skillBodyBlock t).data ≠ [] := by
  refine pyStrip_ne_nil (c := '#') ?_ (by decide)
  simp only [skillBodyBlock, String.data_append, List.mem_append]
  left
  left
  decide

end SkillPkg

namespace SkillPkg

lemma validate_render (name : String) (y mo d h mi s : Nat)
    (hcanon : isCanonicalIdent name = true)
    (hfirst : firstIsLower name = true)
    (hkw : notYamlKeyword name = true)
    (hy1 : 1 ≤ y) (hy2 : y ≤ 9999) (hmo1 : 1 ≤ mo) (hmo2 : mo ≤ 12)
    (hd1 : 1 ≤ d) (hd2 : d ≤ daysInMonth y mo) (hh : h ≤ 23) (hmi : mi ≤ 59) (hs : s ≤ 59) :
    ∃ r : Report,
      validate_skill true
        (pyyamlTemplate name (title_case_skill_name name) (strftimeTs y mo d h mi s)) name
        (renderSkillMd name (title_case_skill_name name) (strftimeTs y mo d h mi s)) = .ok r ∧
      r.passed = true ∧ r.errors = [] := by
  obtain ⟨hne, hall, hhead, hlast, hnoDD⟩ := isCanonicalIdent_parts hcanon
  have hts := strftime_facts y mo d h mi s
  have hfm := fmBlock_noDD_last name (title_case_skill_name name) (strftimeTs y mo d h mi s)
    hnoDD hhead (title_no_hyphen name) hts.1 hts.2.1
  have htrip : hasTriple
      ((skillFmBlock name (title_case_skill_name name) (strftimeTs y mo d h mi s)).data ++
        ['-', '-']) = false :=
    hasTriple_append_two hfm.1 hfm.2
  have hrun : validate_skill true
      (pyyamlTemplate name (title_case_skill_name name) (strftimeTs y mo d h mi s)) name
      (renderSkillMd name (title_case_skill_name name) (strftimeTs y mo d h mi s)) =
      validate_parsed name
        (templateFM name (title_case_skill_name name) (strftimeTs y mo d h mi s))
        ⟨pyStrip (skillBodyBlock (title_case_skill_name name)).data⟩ := by
    rw [validate_skill, renderSkillMd, split_frontmatter_ok _ _ htrip]
    rfl
  have hall' : ∀ f ∈ REQUIRED_FIELDS,
      fmHasKey (templateFM name (title_case_skill_name name) (strftimeTs y mo d h mi s)) f
        = true := by
    intro f hf
    simp only [REQUIRED_FIELDS, List.mem_cons, List.not_mem_nil, or_false] at hf
    rcases hf with rfl|rfl|rfl|rfl|rfl|rfl|rfl|rfl|rfl|rfl|rfl <;> rfl
  have hid : fmGet (templateFM name (title_case_skill_name name) (strftimeTs y mo d h mi s))
      "id" = .ok (.str name) := by
    have h0 : fmGet (templateFM name (title_case_skill_name name) (strftimeTs y mo d h mi s))
        "id" = .ok (resolveScalar name) := rfl
    rw [h0, resolveScalar_eq_str hfirst hkw]
  have hvs := validate_timestamp_strftime hy1 hy2 hmo1 hmo2 hd1 hd2 hh hmi hs
  have hvalid := is_valid_of_canonical hcanon hfirst
  have hbody : (⟨pyStrip (skillBodyBlock (title_case_skill_name name)).data⟩ : String) ≠ "" := by
    intro heq
    exact bodyBlock_stripped_ne_nil (title_case_skill_name name) (congrArg String.data heq)
  have herr : collectAllErrors name name "public" (strftimeTs y mo d h mi s)
      (strftimeTs y mo d h mi s) templateTags (.list []) (.list [])
      ⟨pyStrip (skillBodyBlock (title_case_skill_name name)).data⟩ = [] := by
    rw [collectAllErrors]
    simp [hvs, hvalid, hbody, isYamlList, templateTags]
  have hmain := @validate_parsed_full name
    (templateFM name (title_case_skill_name name) (strftimeTs y mo d h mi s))
    ⟨pyStrip (skillBodyBlock (title_case_skill_name name)).data⟩
    name "public" (strftimeTs y mo d h mi s) (strftimeTs y mo d h mi s)
    templateTags (.list []) (.list []) templateDescription false 3
    hall' hid rfl rfl rfl rfl rfl rfl rfl rfl rfl
  rw [hrun, hmain]
  refine ⟨_, rfl, ?_, ?_⟩
  · rw [herr]
    rfl
  · rw [herr]
    rfl

end SkillPkg

namespace SkillPkg

/-- C1 (amended): round trip for canonical names.  For every name that
is a canonical identifier of length at most 64 whose first character is
a lowercase letter and which is not a YAML keyword scalar, and every
in-range wall-clock reading: the name normalizer accepts the name
unchanged, the generator run succeeds and writes the rendered
`SKILL.md` (for any resource selection, with or without examples), and
the validator on the produced document passes with an empty error
list. -/
theorem c1_roundtrip_amended
    (fs : FS) (name path : String) (rs : List String) (b : Bool) (y mo d h mi s : Nat)
    (hcanon : isCanonicalIdent name = true)
    (hlen : name.length ≤ 64)
    (hfirst : firstIsLower name = true)
    (hkw : notYamlKeyword name = true)
    (hy1 : 1 ≤ y) (hy2 : y ≤ 9999) (hmo1 : 1 ≤ mo) (hmo2 : mo ≤ 12)
    (hd1 : 1 ≤ d) (hd2 : d ≤ daysInMonth y mo) (hh : h ≤ 23) (hmi : mi ≤ 59) (hs : s ≤ 59)
    (hnew : fsExists fs (path ++ "/" ++ name) = false) :
    checkSkillName name = .ok name ∧
    (init_skill fs name path (strftimeTs y mo d h mi s) rs b).1 = some (path ++ "/" ++ name) ∧
    (path ++ "/" ++ name ++ "/SKILL.md",
      renderSkillMd name (title_case_skill_name name) (strftimeTs y mo d h mi s)) ∈
      (init_skill fs name path (strftimeTs y mo d h mi s) rs b).2.files ∧
    ∃ r : Report,
      validate_skill true
        (pyyamlTemplate name (title_case_skill_name name) (strftimeTs y mo d h mi s)) name
        (renderSkillMd name (title_case_skill_name name) (strftimeTs y mo d h mi s)) = .ok r ∧
      r.passed = true ∧ r.errors = [] := by
  have hne : name ≠ "" := (isCanonicalIdent_parts hcanon).1
  refine ⟨?_, ?_, ?_, ?_⟩
  · simp only [checkSkillName, normalize_fixed hcanon]
    rw [if_neg hne, if_neg (by simp only [MAX_SKILL_NAME_LENGTH, not_lt]; exact hlen)]
  · rw [init_skill_success fs name path (strftimeTs y mo d h mi s) rs b hnew]
  · exact skillmd_after_success fs name path (strftimeTs y mo d h mi s) rs b hnew
  · exact validate_render name y mo d h mi s hcanon hfirst hkw hy1 hy2 hmo1 hmo2 hd1 hd2
      hh hmi hs

end SkillPkg

namespace SkillPkg

set_option maxRecDepth 40000 in
/-- C1 counterexample: the normalizer accepts the already-normalized,
length-valid name `9a` unchanged, the generator run succeeds and
writes the rendered document — but the validator fails that document
with the id-format error (its first character is a digit, not a
lowercase letter), so the round trip does not hold as stated. -/
theorem c1_counterexample :
    checkSkillName "9a" = .ok "9a" ∧
    (init_skill ⟨[], []⟩ "9a" "/s" goodTs [] false).2.files =
      [("/s/9a/SKILL.md", renderSkillMd "9a" (title_case_skill_name "9a") goodTs)] ∧
    c1CexRun.map Report.passed = .ok false ∧
    c1CexRun.map Report.errors = .ok [idFmtMsg (.str "9a")] :=
  ⟨rfl, rfl, rfl, rfl⟩

/-- Witness for the amended C1: the concrete round trip for
`demo-skill` created under `/s` with all three resource directories
and examples. -/
theorem c1_roundtrip_amended_witness :
    checkSkillName "demo-skill" = .ok "demo-skill" ∧
    (init_skill ⟨[], []⟩ "demo-skill" "/s" (strftimeTs 2024 1 1 0 0 0)
      ["scripts", "references", "assets"] true).1 = some ("/s" ++ "/" ++ "demo-skill") ∧
    ("/s" ++ "/" ++ "demo-skill" ++ "/SKILL.md",
      renderSkillMd "demo-skill" (title_case_skill_name "demo-skill")
        (strftimeTs 2024 1 1 0 0 0)) ∈
      (init_skill ⟨[], []⟩ "demo-skill" "/s" (strftimeTs 2024 1 1 0 0 0)
        ["scripts", "references", "assets"] true).2.files ∧
    ∃ r : Report,
      validate_skill true
        (pyyamlTemplate "demo-skill" (title_case_skill_name "demo-skill")
          (strftimeTs 2024 1 1 0 0 0)) "demo-skill"
        (renderSkillMd "demo-skill" (title_case_skill_name "demo-skill")
          (strftimeTs 2024 1 1 0 0 0)) = .ok r ∧
      r.passed = true ∧ r.errors = [] :=
  c1_roundtrip_amended ⟨[], []⟩ "demo-skill" "/s" ["scripts", "references", "assets"] true
    2024 1 1 0 0 0 (by decide) (by decide) (by decide) (by decide) (by decide) (by decide)
    (by decide) (by decide) (by decide) (by decide) (by decide) (by decide) (by decide)
    (by decide)

end SkillPkg
